import Mathlib

/-!
Verification development for the effection structured-concurrency core.

The embedding mirrors the sources:
* `src/packages/core/src/task.ts` (createTask: resume, haltChildren, resolve,
  reject, halted, link, unlink, trap, addTrapper, removeTrapper, spawn, halt,
  catchHalt) is modelled as a fueled interpreter `exec` over a `World` of task
  records, one `Call` constructor per source function.
* `src/unnamed/part_000` (createFrame / FrameImpl) is modelled in namespace
  `Fr` as an evaluator loop over a thunk stack.
* `src/src/controller/function-controller.ts` is modelled in namespace `FC`.

Machine details that task.ts delegates to files absent from the sources
(state-machine.ts, the iterator/promise controllers, halt-error.ts) are
modelled from the spec and marked as such in their doc comments.
-/

namespace Effection

/-- The eight task states of spec section 4.2 / state-machine.ts. -/
inductive TState where
  | pending | running | completing | completed | erroring | errored | halting | halted
deriving DecidableEq, Repr

/-- The states `completing`, `erroring` and `halting` are the finishing substates
(spec section 4.2); `StateMachine.isFinishing` in the source. -/
def isFinishing : TState → Bool
  | .completing | .erroring | .halting => true
  | _ => false

/-- The three terminal states. -/
def isTerminal : TState → Bool
  | .completed | .errored | .halted => true
  | _ => false

/-- Modelled from the spec: state-machine.ts is not among the sources.
`finish` per the spec table: completing goes to completed, erroring to
errored, halting to halted (identity elsewhere; `resume` only calls it
under the `isFinishing` guard). -/
def finishSt : TState → TState
  | .completing => .completed
  | .erroring => .errored
  | .halting => .halted
  | s => s

/-- Modelled from the spec: legal `start` transition (pending to running);
an illegal trigger is a programmer error (the source state machine throws),
modelled as `none` which makes the calling operation a no-op. -/
def smStart : TState → Option TState
  | .pending => some .running
  | _ => none

/-- Modelled from the spec: legal `resolve` transition (running to completing). -/
def smResolve : TState → Option TState
  | .running => some .completing
  | _ => none

/-- Modelled from the spec: legal `reject` transition (running to erroring). -/
def smReject : TState → Option TState
  | .running => some .erroring
  | _ => none

/-- Modelled from the spec: legal `halt` transitions
(running or completing or erroring, to halting). -/
def smHalt : TState → Option TState
  | .running | .completing | .erroring => some .halting
  | _ => none

/-- A trapper value.  In the source trappers are closures kept in a JS `Set`:
`trapOf p` is the (unique, per parent) `controls.trap` function of task `p`
installed by `link`; `haltCont owner force` is a fresh
`() => haltChildren(force)` closure made inside `haltChildren`; `ext k`
stands for an externally registered observer callback. -/
inductive Trapper where
  | trapOf (parent : Nat)
  | haltCont (owner : Nat) (force : Bool)
  | ext (k : Nat)
deriving DecidableEq, Repr

/-- How the task's deferred was settled (`deferred.resolve` /
`deferred.reject` in `resume`). -/
inductive Settle where
  | resolvedWith (v : Int)
  | rejectedHalt
  | rejectedWith (e : Int)
deriving DecidableEq, Repr

/-- Observable events: state transitions (the state machine emits on the
event bus), ensure-handler and trapper invocations, link/unlink. -/
inductive Event where
  | trans (t : Nat) (src dst : TState)
  | ensureFired (t : Nat) (h : Nat)
  | trapperFired (t : Nat) (tr : Trapper)
  | linkE (p : Nat) (c : Nat)
  | unlinkE (p : Nat) (c : Nat)
deriving DecidableEq, Repr

/-- Options record `TaskOptions` of task.ts; absent optional booleans read as false. -/
structure TaskOptions where
  resourceScope : Option Nat := none
  blockParent : Bool := false
  ignoreChildErrors : Bool := false
  ignoreError : Bool := false
deriving DecidableEq, Repr

/-- Modelled from the spec: the controllers (iterator/promise controllers)
are not among the sources.  A body either suspends forever (`never`),
resolves immediately with a value, or throws immediately (spec section 4.4:
plain value bodies resolve immediately; a throwing body rejects). -/
inductive BodySpec where
  | never
  | resolveNow (v : Int)
  | errorNow (e : Int)
deriving DecidableEq, Repr

/-- One task's record: the closure state of `createTask` in task.ts
(`stateMachine.current`, `children`, `trappers`, `ensureHandlers`,
`controls.result`, `controls.error`, `options`, the deferred, the body).
Lists keep JS `Set` insertion order. -/
structure TaskRec where
  state : TState := .pending
  children : List Nat := []
  trappers : List Trapper := []
  ensures : List Nat := []
  result : Option Int := none
  error : Option Int := none
  options : TaskOptions := {}
  settled : Option Settle := none
  body : BodySpec := .never
deriving DecidableEq, Repr

/-- The whole supervision tree plus the event log and the id counter
(`COUNTER` in task.ts). -/
structure World where
  tasks : List (Nat × TaskRec) := []
  log : List Event := []
  nextId : Nat := 0
deriving DecidableEq, Repr

/-- Association-list lookup (task id to record). -/
def lookupA : List (Nat × TaskRec) → Nat → Option TaskRec
  | [], _ => none
  | (k, r) :: rest, t => if k = t then some r else lookupA rest t

def lookupT (w : World) (t : Nat) : Option TaskRec := lookupA w.tasks t

/-- Association-list pointwise update. -/
def updA : List (Nat × TaskRec) → Nat → (TaskRec → TaskRec) → List (Nat × TaskRec)
  | [], _, _ => []
  | (k, r) :: rest, t, f =>
    if k = t then (k, f r) :: updA rest t f else (k, r) :: updA rest t f

def updTask (w : World) (t : Nat) (f : TaskRec → TaskRec) : World :=
  { w with tasks := updA w.tasks t f }

def updState (w : World) (t : Nat) (st : TState) : World :=
  updTask w t (fun q => { q with state := st })

def pushLog (w : World) (e : Event) : World := { w with log := w.log ++ [e] }

def pushLogs (w : World) (es : List Event) : World := { w with log := w.log ++ es }

/-- The Deferred settles only once (`Deferred` in the source is one-shot). -/
def setSettled (w : World) (t : Nat) (o : Settle) : World :=
  updTask w t (fun q => match q.settled with
    | none => { q with settled := some o }
    | some _ => q)

/-- Semantics of `trappers.add`: `controls.trap` is one function object per task, so a
second add of `trapOf p` is absorbed by the JS `Set`; `haltCont` and `ext`
stand for fresh closures, which a `Set` always admits. -/
def addTrapperL (l : List Trapper) (tr : Trapper) : List Trapper :=
  match tr with
  | .trapOf _ => if tr ∈ l then l else l ++ [tr]
  | _ => l ++ [tr]

def addTrapperW (w : World) (t : Nat) (tr : Trapper) : World :=
  updTask w t (fun q => { q with trappers := addTrapperL q.trappers tr })

def removeTrapperW (w : World) (t : Nat) (tr : Trapper) : World :=
  updTask w t (fun q => { q with trappers := q.trappers.erase tr })

def stateOf (w : World) (t : Nat) : Option TState := (lookupT w t).map (·.state)

def childrenOf (w : World) (t : Nat) : List Nat :=
  match lookupT w t with
  | some r => r.children
  | none => []

def trappersOf (w : World) (t : Nat) : List Trapper :=
  match lookupT w t with
  | some r => r.trappers
  | none => []

def ensuresOf (w : World) (t : Nat) : List Nat :=
  match lookupT w t with
  | some r => r.ensures
  | none => []

def resultOf (w : World) (t : Nat) : Option Int := (lookupT w t).bind (·.result)

def errorOf (w : World) (t : Nat) : Option Int := (lookupT w t).bind (·.error)

def settledOf (w : World) (t : Nat) : Option Settle := (lookupT w t).bind (·.settled)

def isTerminalO : Option TState → Bool
  | some s => isTerminal s
  | none => false

def blockParentOf (w : World) (c : Nat) : Bool :=
  match lookupT w c with
  | some rc => rc.options.blockParent
  | none => false

/-- Linking, `controls.link` (task.ts lines 143-149): if the child is not yet linked,
install the parent's trap as a trapper on the child, add the child to
`children`, and emit a link event. -/
def linkW (w : World) (p : Nat) (c : Nat) : World :=
  match lookupT w p with
  | none => w
  | some r =>
    if c ∈ r.children then w
    else
      pushLog
        (updTask (addTrapperW w c (.trapOf p)) p
          (fun q => { q with children := q.children ++ [c] }))
        (.linkE p c)

/-- Unlinking, `controls.unlink` (task.ts lines 151-157): if the child is linked, remove
the parent's trap from the child's trappers, delete the child from
`children`, and emit an unlink event. -/
def unlinkW (w : World) (p : Nat) (c : Nat) : World :=
  match lookupT w p with
  | none => w
  | some r =>
    if c ∈ r.children then
      pushLog
        (updTask (removeTrapperW w c (.trapOf p)) p
          (fun q => { q with children := q.children.erase c }))
        (.unlinkE p c)
    else w

/-- One `Call` constructor per function of task.ts that re-enters the
supervision machinery.  `drainTrappers` is the `trappers.forEach` loop of
`resume`, written as a drain so that trappers appended while the loop runs
are still visited (JS `Set.forEach` visits values added during iteration). -/
inductive Call where
  | start (t : Nat)
  | resolve (t : Nat) (v : Int)
  | reject (t : Nat) (e : Int)
  | halted (t : Nat)
  | halt (t : Nat)
  | haltChildren (t : Nat) (force : Bool)
  | trap (p : Nat) (c : Nat)
  | resume (t : Nat)
  | drainTrappers (t : Nat)
  | noop
deriving DecidableEq, Repr

/-- Firing a trapper with the terminal task `t` as argument: the parent's
trap runs `trap(t)`; a halt continuation re-invokes `haltChildren(force)`
on its owner; an external observer has no effect inside the model. -/
def callOfTrapper (t : Nat) : Trapper → Call
  | .trapOf p => .trap p t
  | .haltCont owner force => .haltChildren owner force
  | .ext _ => .noop

/-- The supervision interpreter, one branch per function of task.ts
(line numbers refer to src/packages/core/src/task.ts).  Fuel only bounds
recursion depth; every mutation mirrors the source. -/
def exec : Nat → World → Call → World
  | 0, w, _ => w
  | n + 1, w, c =>
    match c with
    | .noop => w
    | .start t =>
      -- lines 113-116: stateMachine.start(); controller.start().
      match lookupT w t with
      | none => w
      | some r =>
        match smStart r.state with
        | none => w
        | some st =>
          let w1 := pushLog (updState w t st) (.trans t r.state st)
          -- Modelled from the spec: controller.start dispatch (section 4.4).
          match r.body with
          | .never => w1
          | .resolveNow v => exec n w1 (.resolve t v)
          | .errorNow e => exec n w1 (.reject t e)
    | .resolve t v =>
      -- lines 118-123: stateMachine.resolve(); result := value;
      -- haltChildren(false); resume().
      match lookupT w t with
      | none => w
      | some r =>
        match smResolve r.state with
        | none => w
        | some st =>
          let w1 := pushLog
            (updTask w t (fun q => { q with state := st, result := some v }))
            (.trans t r.state st)
          exec n (exec n w1 (.haltChildren t false)) (.resume t)
    | .reject t e =>
      -- lines 125-131: stateMachine.reject(); result := undefined (clear a
      -- previously set result); error := e; haltChildren(true); resume().
      match lookupT w t with
      | none => w
      | some r =>
        match smReject r.state with
        | none => w
        | some st =>
          let w1 := pushLog
            (updTask w t (fun q => { q with state := st, result := none, error := some e }))
            (.trans t r.state st)
          exec n (exec n w1 (.haltChildren t true)) (.resume t)
    | .halted t =>
      -- lines 137-141: stateMachine.halt(); haltChildren(true); resume().
      match lookupT w t with
      | none => w
      | some r =>
        match smHalt r.state with
        | none => w
        | some st =>
          let w1 := pushLog (updState w t st) (.trans t r.state st)
          exec n (exec n w1 (.haltChildren t true)) (.resume t)
    | .halt t =>
      -- lines 206-212: task.halt() calls controller.halt().  Modelled from
      -- the spec: the controllers are not among the sources; aborting a live
      -- body invokes controls.halted(); on a task that is already halting
      -- or terminal (or never started) it is a no-op.
      match lookupT w t with
      | none => w
      | some r =>
        if r.state = .running ∨ r.state = .completing ∨ r.state = .erroring then
          exec n w (.halted t)
        else w
    | .haltChildren t force =>
      -- lines 95-106: walk Array.from(children).reverse(); on the first
      -- child with force or not blockParent, add a trapper re-invoking
      -- haltChildren(force), call child.halt(), and return.
      match lookupT w t with
      | none => w
      | some r =>
        match r.children.reverse.find? (fun c => force || !(blockParentOf w c)) with
        | none => w
        | some cId => exec n (addTrapperW w cId (.haltCont t force)) (.halt cId)
    | .trap p c =>
      -- lines 159-168: if the child is linked and errored and neither
      -- ignoreError nor ignoreChildErrors is set, reject with the child's
      -- error; then unlink the child; always resume().
      match lookupT w p, lookupT w c with
      | some rp, some rc =>
        if c ∈ rp.children then
          let w1 :=
            if rc.state = .errored ∧ rc.options.ignoreError = false
                ∧ rp.options.ignoreChildErrors = false then
              exec n w (.reject p (rc.error.getD 0))
            else w
          exec n (unlinkW w1 p c) (.resume p)
        else exec n w (.resume p)
      | _, _ => w
    | .resume t =>
      -- lines 72-93: if isFinishing and children is empty: finish; fire all
      -- ensure handlers, then all trappers; clear both sets; settle the
      -- deferred according to the terminal state.
      match lookupT w t with
      | none => w
      | some r =>
        if isFinishing r.state = true ∧ r.children = [] then
          let st := finishSt r.state
          let w1 := pushLog (updState w t st) (.trans t r.state st)
          let w2 := pushLogs w1 (r.ensures.map (fun h => .ensureFired t h))
          let w3 := exec n w2 (.drainTrappers t)
          let w4 := updTask w3 t (fun q => { q with ensures := [], trappers := [] })
          match lookupT w4 t with
          | none => w4
          | some q =>
            if q.state = .completed then setSettled w4 t (.resolvedWith (q.result.getD 0))
            else if q.state = .halted then setSettled w4 t .rejectedHalt
            else if q.state = .errored then setSettled w4 t (.rejectedWith (q.error.getD 0))
            else w4
        else w
    | .drainTrappers t =>
      -- the trappers.forEach loop of resume (line 77), with JS Set
      -- iteration semantics: visit in insertion order, including trappers
      -- appended during the iteration; each visited trapper fires once.
      match lookupT w t with
      | none => w
      | some r =>
        match r.trappers with
        | [] => w
        | tr :: rest =>
          let w1 := updTask w t (fun q => { q with trappers := rest })
          let w2 := pushLog w1 (.trapperFired t tr)
          exec n (exec n w2 (callOfTrapper t tr)) (.drainTrappers t)

/-- A freshly created task (`createTask`): pending, no children, no
trappers, no handlers, unsettled. -/
def newTask (opts : TaskOptions) (body : BodySpec) : TaskRec :=
  { options := opts, body := body }

/-- Spawning, `task.spawn` (task.ts lines 193-204): throw when not running; default
`options.resourceScope` to the spawning task; create the child, link it,
start it, return it. -/
def spawn (fuel : Nat) (w : World) (p : Nat) (body : BodySpec) (opts : TaskOptions) :
    Except String (World × Nat) :=
  match lookupT w p with
  | none => .error "EFFECTION INTERNAL ERROR unable to retrieve controls for task"
  | some r =>
    if r.state = .running then
      let opts1 :=
        match opts.resourceScope with
        | none => { opts with resourceScope := some p }
        | some _ => opts
      let cId := w.nextId
      let w1 : World :=
        { w with nextId := cId + 1, tasks := w.tasks ++ [(cId, newTask opts1 body)] }
      let w2 := linkW w1 p cId
      .ok (exec fuel w2 (.start cId), cId)
    else .error "cannot spawn a child on a task which is not running"

/-- How `resume` settles the deferred once the terminal state is entered
(task.ts lines 82-91, in source order): a completed task resolves with its
result, a halted task rejects with a HaltError, an errored task rejects
with its error. -/
def settleFor (st : TState) (res err : Option Int) : Settle :=
  if st = .completed then .resolvedWith (res.getD 0)
  else if st = .halted then .rejectedHalt
  else .rejectedWith (err.getD 0)

/-- Spec-side description of the halt-cascade target (spec section 4.3 /
the claim): visiting children in reverse insertion order, the first child
for which `force` holds or `blockParent` is not set. -/
def specTarget (w : World) (t : Nat) (force : Bool) : Option Nat :=
  ((childrenOf w t).reverse.filter (fun c => force || !(blockParentOf w c))).head?

/-- Is `e` an ensure-handler invocation of task `t`. -/
def isEnsureOf (t : Nat) : Event → Bool
  | .ensureFired u _ => u = t
  | _ => false

/-- Is `e` a state transition of task `t`. -/
def isTransOf (t : Nat) : Event → Bool
  | .trans u _ _ => u = t
  | _ => false

/-- Is `e` a trapper invocation of task `t`. -/
def isTrapperOf (t : Nat) : Event → Bool
  | .trapperFired u _ => u = t
  | _ => false

/-- Any lifecycle event of task `t` (transition, ensure, trapper). -/
def eventsAbout (t : Nat) (e : Event) : Bool :=
  isEnsureOf t e || isTransOf t e || isTrapperOf t e

/-- The log of `w1` extends the log of `w`. -/
def logExt (w w1 : World) : Prop := ∃ l, w1.log = w.log ++ l

/-- The events appended between `w` and `w1`. -/
def newEvents (w w1 : World) : List Event := w1.log.drop w.log.length

/-- The state, result, error and deferred of one task (the fields of a
terminal task that the supervision machinery never touches again). -/
def taskCore (w : World) (t : Nat) :
    Option (TState × Option Int × Option Int × Option Settle) :=
  (lookupT w t).map (fun r => (r.state, r.result, r.error, r.settled))

/-- Spec invariant 4: a terminal task has no linked children. -/
def TermInv (w : World) : Prop :=
  ∀ t r, lookupT w t = some r → isTerminal r.state = true → r.children = []

/-- The result/error discipline per state: both clear before the body
settles; `resolve` sets the result, `reject` sets the error and clears any
result; a halting/halted task keeps whichever (at most one) was set. -/
def fieldsOk (r : TaskRec) : Prop :=
  match r.state with
  | .pending | .running => r.result = none ∧ r.error = none
  | .completing | .completed => (∃ v, r.result = some v) ∧ r.error = none
  | .erroring | .errored => r.result = none ∧ (∃ e, r.error = some e)
  | .halting | .halted => r.result = none ∨ r.error = none

/-- Result/error mutual-exclusion invariant over the whole world. -/
def MutexInv (w : World) : Prop :=
  ∀ t r, lookupT w t = some r → fieldsOk r

/-- Every task id and every linked child id is below the id counter (true
of every world built through `createTask`/`spawn`). -/
def idsBounded (w : World) : Prop :=
  ∀ p ∈ w.tasks, p.1 < w.nextId ∧ ∀ x ∈ p.2.children, x < w.nextId

/-- Concrete scenario worlds (used by counterexamples and witnesses). -/
def rootW : World := { tasks := [(1, { state := .pending })], nextId := 2 }

def rootRunning : World := exec 10 rootW (.start 1)

/-- A running root with one `blockParent` child, both live. -/
def c5w : World :=
  match spawn 10 rootRunning 1 .never { blockParent := true } with
  | .ok (w, _) => w
  | .error _ => rootRunning

/-- The C5 scenario: the root's body resolves with 9 while the blockParent
child is still live, then the root is explicitly halted. -/
def c5run : World := exec 20 (exec 20 c5w (.resolve 1 9)) (.halt 1)

/-- A single finishing, childless task about to resume (witness world). -/
def finW : World :=
  { tasks := [(1, { state := .halting, ensures := [4, 5], trappers := [.ext 0] })],
    nextId := 2 }

/-- A completing, childless task with its result set (witness world). -/
def finCW : World :=
  { tasks := [(1, { state := .completing, result := some 7 })], nextId := 2 }

/-- A running parent with two linked running children (witness world for
the halt cascade; child 3 was spawned last). -/
def cascW : World :=
  { tasks :=
      [(1, { state := .running, children := [2, 3] }),
       (2, { state := .running, trappers := [.trapOf 1],
             options := { resourceScope := some 1 } }),
       (3, { state := .running, trappers := [.trapOf 1],
             options := { resourceScope := some 1, blockParent := true } })],
    nextId := 4 }

/-- A parent in erroring with an errored linked child (witness world for
the trap). -/
def trapW : World :=
  { tasks :=
      [(1, { state := .running, children := [2] }),
       (2, { state := .errored, error := some 5, trappers := [],
             options := { resourceScope := some 1 } })],
    nextId := 3 }

/-- An awaiter of the task's promise: a completed task resolves with its
result, an errored task rejects with its error, a halted task rejects with
a HaltError. -/
inductive AwaitErr where
  | haltError
  | opError (e : Int)
deriving DecidableEq, Repr

def awaitTask : Settle → Except AwaitErr Int
  | .resolvedWith v => .ok v
  | .rejectedHalt => .error .haltError
  | .rejectedWith e => .error (.opError e)

/-- Modelled from the spec: halt-error.ts (`swallowHalt`) is not among the
sources.  `task.catchHalt()` is `deferred.promise.catch(swallowHalt)`:
a HaltError becomes a normal empty (undefined) outcome, every other error
is rethrown (spec section 6). -/
def catchHalt (s : Settle) : Except AwaitErr (Option Int) :=
  match awaitTask s with
  | .ok v => .ok (some v)
  | .error .haltError => .ok none
  | .error e => .error e

end Effection

namespace Fr

/-!
Model of the frame evaluator, src/unnamed/part_000 (createFrame and
FrameImpl).  The body is a suspendable computation; each yielded
instruction carries its outcome (settled with a result, or interrupted
because `destroy` fired at that suspension point).
-/

/-- Results, `Result` of the source: Ok or Err. -/
inductive Res where
  | ok (v : Int)
  | err (e : Int)
deriving DecidableEq, Repr

/-- The outcome the evaluator observes for a yielded instruction: either the
instruction settles with a result, or `destroy(reason?)` is called while the
frame is suspended on it, which sets `aborted`/`crash`, unshifts an abort
thunk and fires `interrupt` (the `interrupted` branch of the loop). -/
inductive InstrSpec where
  | settles (r : Res)
  | interruptedBy (reason : Option Int)
deriving Repr

/-- A suspendable body: `done v` is a generator returning `v`; `raise e` a
generator throwing `e`; `yld spec onNext onThrow onReturn` yields an
instruction, with the continuations the iterator trio next/throw/return
offers (a missing `onThrow` rethrows; a missing `onReturn` finishes
immediately on abort, matching lines 178-194 of the source). -/
inductive Body where
  | done (v : Int)
  | raise (e : Int)
  | yld (spec : InstrSpec) (onNext : Int → Body)
      (onThrow : Option (Int → Body)) (onReturn : Option Body)

/-- The iterator position: not yet started, or suspended at a yield. -/
inductive Susp where
  | initial (b : Body)
  | atYield (onNext : Int → Body) (onThrow : Option (Int → Body)) (onReturn : Option Body)

/-- The observable result of invoking the iterator once. -/
inductive IterOut where
  | isDone (v : Int)
  | threw (e : Int)
  | yielded (s : InstrSpec) (k : Susp)

/-- Run a body up to its next suspension point. -/
def runBody : Body → IterOut
  | .done v => .isDone v
  | .raise e => .threw e
  | .yld s k kt kr => .yielded s (.atYield k kt kr)

/-- Thunk `$next(value)`: `i.next(value)`.  The argument of the first `next` is
ignored by a generator. -/
def doNext : Susp → Int → IterOut
  | .initial b, _ => runBody b
  | .atYield k _ _, v => runBody (k v)

/-- Thunk `$throw(error)`: `i.throw(error)` if the body handles it, otherwise the
error propagates (lines 178-185). -/
def doThrow : Susp → Int → IterOut
  | .initial _, e => .threw e
  | .atYield _ (some kt) _, e => runBody (kt e)
  | .atYield _ none _, e => .threw e

/-- Thunk `$abort()`: `i.return()` if present, else an immediate done result
(lines 187-194); an unstarted generator closes immediately. -/
def doReturn : Susp → IterOut
  | .initial _ => .isDone 0
  | .atYield _ _ (some kr) => runBody kr
  | .atYield _ _ none => .isDone 0

/-- A thunk of the evaluator stack: the pending call to make on the
iterator, or a done marker carrying the final result. -/
inductive Thunk where
  | tnext (v : Int)
  | tthrow (e : Int)
  | tabort
  | tdone (r : Res)
deriving DecidableEq, Repr

/-- Popping: `thunks.pop()` takes from the far end of the JS array (`unshift` adds at
the front). -/
def popLast (l : List Thunk) : Option (Thunk × List Thunk) :=
  match l.getLast? with
  | none => none
  | some t => some (t, l.dropLast)

/-- The frame teardown flags set by `destroy`. -/
structure Flags where
  aborted : Bool := false
  crash : Option Int := none
deriving DecidableEq, Repr

/-- The evaluation loop of `createFrame` (lines 33-76): pop a thunk; a done
thunk ends the loop with its result; otherwise invoke the iterator and
dispatch on the outcome: body done pushes a done-Ok thunk, a body throw is
caught and pushes a done-Err thunk, a settled instruction pushes
next/throw, an interruption (destroy at this suspension) sets the flags and
pushes an abort thunk.  A second destroy is a no-op and in particular does
not fire `interrupt`, so an interruption while already aborted leaves the
frame suspended forever (`none`).  Fuel exhaustion is also `none`. -/
def loop : Nat → List Thunk → Susp → Flags → Option (Res × Flags)
  | 0, _, _, _ => none
  | n + 1, thunks, susp, fl =>
    match popLast thunks with
    | none => none
    | some (thunk, rest) =>
      match thunk with
      | .tdone r => some (r, fl)
      | _ =>
        let out :=
          match thunk with
          | .tnext v => doNext susp v
          | .tthrow e => doThrow susp e
          | _ => doReturn susp
        match out with
        | .isDone v => loop n (.tdone (.ok v) :: rest) susp fl
        | .threw e => loop n (.tdone (.err e) :: rest) susp fl
        | .yielded s k =>
          match s with
          | .settles (.ok v) => loop n (.tnext v :: rest) k fl
          | .settles (.err e) => loop n (.tthrow e :: rest) k fl
          | .interruptedBy reason =>
            if fl.aborted then none
            else loop n (.tabort :: rest) k { aborted := true, crash := reason }

/-- The frame's final `Exit` (lines 78-90): an error result wins, then a
crash reason, then the aborted flag, then the normal result. -/
inductive Exit where
  | result (r : Res)
  | aborted
  | crashed (e : Int)
deriving DecidableEq, Repr

def exitOf (r : Res) (fl : Flags) : Exit :=
  match r with
  | .err e => .result (.err e)
  | .ok v =>
    match fl.crash with
    | some e => .crashed e
    | none => if fl.aborted then .aborted else .result (.ok v)

/-- Run a fresh frame on a body: initial thunk stack `[$next(void 0)]`
(FrameImpl line 127), fresh flags, then classify the exit. -/
def runFrame (fuel : Nat) (b : Body) : Option Exit :=
  (loop fuel [.tnext 0] (.initial b) {}).map (fun p => exitOf p.1 p.2)

/-- The mutable teardown state of `FrameImpl`: the fields `destroy` touches
(lines 161-169), plus a count of `interrupt()` invocations. -/
structure FrameS where
  aborted : Bool := false
  crash : Option Int := none
  thunks : List Thunk := [.tnext 0]
  interrupts : Nat := 0
deriving DecidableEq, Repr

/-- Destruction, `FrameImpl.destroy(reason?)` (lines 161-169): guarded by the `aborted`
flag; the first call records the crash reason, unshifts an abort thunk and
fires `interrupt`; later calls do nothing. -/
def destroy (reason : Option Int) (f : FrameS) : FrameS :=
  if f.aborted = false then
    { f with aborted := true, crash := reason,
             thunks := .tabort :: f.thunks, interrupts := f.interrupts + 1 }
  else f

/-- A body destroyed (reason 7) at its second instruction whose
`try/finally` unwinding yields an instruction that errs (5), uncaught. -/
def cexBody : Body :=
  .yld (.settles (.ok 1)) (fun _ =>
    .yld (.interruptedBy (some 7)) (fun _ => .done 0) none
      (some (.yld (.settles (.err 5)) (fun _ => .done 0) none none)))
    none none

/-- A body destroyed (reason 7) at its second instruction whose
`try/finally` unwinding yields one more instruction, normally. -/
def okBody : Body :=
  .yld (.settles (.ok 1)) (fun _ =>
    .yld (.interruptedBy (some 7)) (fun _ => .done 0) none
      (some (.yld (.settles (.ok 3)) (fun _ => .done 9) none none)))
    none none

end Fr

namespace FC

/-!
Model of src/src/controller/function-controller.ts (FunctionContoller).
-/

/-- The controller a function body is classified into by `start`. -/
inductive CtrlKind where
  | promiseC
  | iteratorC
deriving DecidableEq, Repr

/-- What invoking the operation function does: return a promise, return an
iterator, or throw. -/
inductive OpBehavior where
  | returnsPromise
  | returnsIterator
  | throws (e : Int)
deriving DecidableEq, Repr

/-- The controller's private state: `this.controller`, unset until `start`
has classified the body. -/
structure FCState where
  controller : Option CtrlKind := none
deriving DecidableEq, Repr

/-- The externally visible effect of `start`. -/
inductive StartEff where
  | taskRejected (e : Int)
  | startedWith (k : CtrlKind)
deriving DecidableEq, Repr

/-- Start, `FunctionContoller.start` (lines 20-36): invoke the operation; a throw
rejects the task and returns without installing a controller; otherwise
`isPromise(result)` selects a PromiseController, anything else an
IteratorController, which is stored and started. -/
def startFC : OpBehavior → FCState → FCState × StartEff
  | .throws e, s => (s, .taskRejected e)
  | .returnsPromise, _ => ({ controller := some .promiseC }, .startedWith .promiseC)
  | .returnsIterator, _ => ({ controller := some .iteratorC }, .startedWith .iteratorC)

/-- Halt, `FunctionContoller.halt` (lines 38-44): delegate to the inner controller
when one exists, otherwise throw the internal error. -/
def haltFC (s : FCState) : Except String CtrlKind :=
  match s.controller with
  | some k => .ok k
  | none => .error "INTERNAL ERROR: halt called before start, this should never happen"

end FC

namespace Effection

/-! Basic lemmas about the world helpers. -/

theorem lookupA_updA (l : List (Nat × TaskRec)) (t u : Nat) (f : TaskRec → TaskRec) :
    lookupA (updA l t f) u = if u = t then (lookupA l t).map f else lookupA l u := by
  induction l with
  | nil => simp [lookupA, updA]
  | cons p rest ih =>
    obtain ⟨k, r⟩ := p
    by_cases hk : k = t
    · subst hk
      by_cases hu : u = k
      · subst hu
        simp [updA, lookupA]
      · have hku : k ≠ u := fun h => hu h.symm
        simp [updA, lookupA, hku, hu, ih]
    · by_cases hu : u = k
      · subst hu
        simp [updA, lookupA, hk, ih]
      · have hku : k ≠ u := fun h => hu h.symm
        simp [updA, lookupA, hk, hku, ih]

theorem lookupT_updTask (w : World) (t u : Nat) (f : TaskRec → TaskRec) :
    lookupT (updTask w t f) u = if u = t then (lookupT w t).map f else lookupT w u := by
  simp [lookupT, updTask, lookupA_updA]

theorem lookupT_updTask_self (w : World) (t : Nat) (f : TaskRec → TaskRec) :
    lookupT (updTask w t f) t = (lookupT w t).map f := by
  simp [lookupT_updTask]

theorem lookupT_updTask_ne (w : World) (t u : Nat) (f : TaskRec → TaskRec) (h : u ≠ t) :
    lookupT (updTask w t f) u = lookupT w u := by
  simp [lookupT_updTask, h]

theorem lookupT_pushLog (w : World) (e : Event) (u : Nat) :
    lookupT (pushLog w e) u = lookupT w u := rfl

theorem lookupT_pushLogs (w : World) (es : List Event) (u : Nat) :
    lookupT (pushLogs w es) u = lookupT w u := rfl

theorem updTask_log (w : World) (t : Nat) (f : TaskRec → TaskRec) :
    (updTask w t f).log = w.log := rfl

theorem pushLog_log (w : World) (e : Event) : (pushLog w e).log = w.log ++ [e] := rfl

theorem pushLogs_log (w : World) (es : List Event) : (pushLogs w es).log = w.log ++ es := rfl

/-! Log extension: every operation only appends to the event log. -/

theorem logExt_refl (w : World) : logExt w w := ⟨[], by simp⟩

theorem logExt_trans {w1 w2 w3 : World} (h1 : logExt w1 w2) (h2 : logExt w2 w3) :
    logExt w1 w3 := by
  obtain ⟨l1, e1⟩ := h1
  obtain ⟨l2, e2⟩ := h2
  exact ⟨l1 ++ l2, by simp [e2, e1]⟩

theorem logExt_updTask (w : World) (t : Nat) (f : TaskRec → TaskRec) :
    logExt w (updTask w t f) := ⟨[], by simp [updTask_log]⟩

theorem logExt_pushLog (w : World) (e : Event) : logExt w (pushLog w e) := ⟨[e], rfl⟩

theorem logExt_pushLogs (w : World) (es : List Event) : logExt w (pushLogs w es) := ⟨es, rfl⟩

theorem logExt_updState (w : World) (t : Nat) (st : TState) : logExt w (updState w t st) :=
  logExt_updTask ..

theorem logExt_setSettled (w : World) (t : Nat) (o : Settle) : logExt w (setSettled w t o) :=
  logExt_updTask ..

theorem logExt_addTrapperW (w : World) (t : Nat) (tr : Trapper) :
    logExt w (addTrapperW w t tr) := logExt_updTask ..

theorem logExt_removeTrapperW (w : World) (t : Nat) (tr : Trapper) :
    logExt w (removeTrapperW w t tr) := logExt_updTask ..

theorem logExt_unlinkW (w : World) (p c : Nat) : logExt w (unlinkW w p c) := by
  unfold unlinkW
  split
  · exact logExt_refl w
  · split
    · exact logExt_trans (logExt_trans (logExt_removeTrapperW ..) (logExt_updTask ..))
        (logExt_pushLog ..)
    · exact logExt_refl w

theorem logExt_exec : ∀ (n : Nat) (w : World) (c : Call), logExt w (exec n w c) := by
  intro n
  induction n with
  | zero => intro w c; exact logExt_refl w
  | succ n ih =>
    intro w c
    cases c with
    | noop => exact logExt_refl w
    | start t =>
      simp only [exec]
      split
      · exact logExt_refl w
      · split
        · exact logExt_refl w
        · split
          · exact logExt_trans (logExt_updState ..) (logExt_pushLog ..)
          · exact logExt_trans (logExt_trans (logExt_updState ..) (logExt_pushLog ..)) (ih ..)
          · exact logExt_trans (logExt_trans (logExt_updState ..) (logExt_pushLog ..)) (ih ..)
    | resolve t v =>
      simp only [exec]
      split
      · exact logExt_refl w
      · split
        · exact logExt_refl w
        · exact logExt_trans
            (logExt_trans (logExt_trans (logExt_updTask ..) (logExt_pushLog ..)) (ih ..)) (ih ..)
    | reject t e =>
      simp only [exec]
      split
      · exact logExt_refl w
      · split
        · exact logExt_refl w
        · exact logExt_trans
            (logExt_trans (logExt_trans (logExt_updTask ..) (logExt_pushLog ..)) (ih ..)) (ih ..)
    | halted t =>
      simp only [exec]
      split
      · exact logExt_refl w
      · split
        · exact logExt_refl w
        · exact logExt_trans
            (logExt_trans (logExt_trans (logExt_updState ..) (logExt_pushLog ..)) (ih ..)) (ih ..)
    | halt t =>
      simp only [exec]
      split
      · exact logExt_refl w
      · split
        · exact ih ..
        · exact logExt_refl w
    | haltChildren t force =>
      simp only [exec]
      split
      · exact logExt_refl w
      · split
        · exact logExt_refl w
        · exact logExt_trans (logExt_addTrapperW ..) (ih ..)
    | trap p ch =>
      simp only [exec]
      split
      · split
        · refine logExt_trans (logExt_trans ?_ (logExt_unlinkW ..)) (ih ..)
          split
          · exact ih ..
          · exact logExt_refl w
        · exact ih ..
      · exact logExt_refl w
    | resume t =>
      simp only [exec]
      split
      · exact logExt_refl w
      · split
        · split
          · exact logExt_trans
              (logExt_trans
                (logExt_trans (logExt_trans (logExt_updState ..) (logExt_pushLog ..))
                  (logExt_pushLogs ..)) (ih ..)) (logExt_updTask ..)
          · split
            · exact logExt_trans (logExt_trans
                (logExt_trans
                  (logExt_trans (logExt_trans (logExt_updState ..) (logExt_pushLog ..))
                    (logExt_pushLogs ..)) (ih ..)) (logExt_updTask ..)) (logExt_setSettled ..)
            · split
              · exact logExt_trans (logExt_trans
                  (logExt_trans
                    (logExt_trans (logExt_trans (logExt_updState ..) (logExt_pushLog ..))
                      (logExt_pushLogs ..)) (ih ..)) (logExt_updTask ..)) (logExt_setSettled ..)
              · split
                · exact logExt_trans (logExt_trans
                    (logExt_trans
                      (logExt_trans (logExt_trans (logExt_updState ..) (logExt_pushLog ..))
                        (logExt_pushLogs ..)) (ih ..)) (logExt_updTask ..)) (logExt_setSettled ..)
                · exact logExt_trans
                    (logExt_trans
                      (logExt_trans (logExt_trans (logExt_updState ..) (logExt_pushLog ..))
                        (logExt_pushLogs ..)) (ih ..)) (logExt_updTask ..)
        · exact logExt_refl w
    | drainTrappers t =>
      simp only [exec]
      split
      · exact logExt_refl w
      · split
        · exact logExt_refl w
        · exact logExt_trans
            (logExt_trans (logExt_trans (logExt_updTask ..) (logExt_pushLog ..)) (ih ..)) (ih ..)

end Effection

namespace Effection

theorem isTerminal_smStart {s : TState} (h : isTerminal s = true) : smStart s = none := by
  cases s <;> simp_all [isTerminal, smStart]

theorem isTerminal_smResolve {s : TState} (h : isTerminal s = true) : smResolve s = none := by
  cases s <;> simp_all [isTerminal, smResolve]

theorem isTerminal_smReject {s : TState} (h : isTerminal s = true) : smReject s = none := by
  cases s <;> simp_all [isTerminal, smReject]

theorem isTerminal_smHalt {s : TState} (h : isTerminal s = true) : smHalt s = none := by
  cases s <;> simp_all [isTerminal, smHalt]

theorem isTerminal_not_finishing {s : TState} (h : isTerminal s = true) :
    isFinishing s = false := by
  cases s <;> simp_all [isTerminal, isFinishing]

theorem stateOf_taskCore (w : World) (t : Nat) :
    stateOf w t = (taskCore w t).map (fun x => x.1) := by
  unfold stateOf taskCore
  cases lookupT w t <;> rfl

theorem taskCore_updTask (w : World) (u t : Nat) (f : TaskRec → TaskRec)
    (hf : ∀ r, (f r).state = r.state ∧ (f r).result = r.result ∧ (f r).error = r.error
        ∧ (f r).settled = r.settled) :
    taskCore (updTask w u f) t = taskCore w t := by
  unfold taskCore
  rw [lookupT_updTask]
  by_cases h : t = u
  · subst h
    simp only [if_pos rfl]
    cases lookupT w t with
    | none => rfl
    | some r =>
      simp [Option.map, (hf r).1, (hf r).2.1, (hf r).2.2.1, (hf r).2.2.2]
  · simp [h]

theorem taskCore_updTask_ne (w : World) (u t : Nat) (f : TaskRec → TaskRec) (h : t ≠ u) :
    taskCore (updTask w u f) t = taskCore w t := by
  unfold taskCore
  rw [lookupT_updTask_ne _ _ _ _ h]

theorem taskCore_pushLog (w : World) (e : Event) (t : Nat) :
    taskCore (pushLog w e) t = taskCore w t := rfl

theorem taskCore_pushLogs (w : World) (es : List Event) (t : Nat) :
    taskCore (pushLogs w es) t = taskCore w t := rfl

theorem taskCore_addTrapperW (w : World) (u t : Nat) (tr : Trapper) :
    taskCore (addTrapperW w u tr) t = taskCore w t := by
  unfold addTrapperW
  exact taskCore_updTask _ _ _ _ (fun r => by simp)

theorem taskCore_removeTrapperW (w : World) (u t : Nat) (tr : Trapper) :
    taskCore (removeTrapperW w u tr) t = taskCore w t := by
  unfold removeTrapperW
  exact taskCore_updTask _ _ _ _ (fun r => by simp)

theorem taskCore_unlinkW (w : World) (p c t : Nat) :
    taskCore (unlinkW w p c) t = taskCore w t := by
  unfold unlinkW
  split
  · rfl
  · split
    · rw [taskCore_pushLog, taskCore_updTask _ _ _ _ (fun r => by simp),
        taskCore_removeTrapperW]
    · rfl

theorem exec_terminal_stable :
    ∀ (n : Nat) (w : World) (c : Call) (t : Nat),
      isTerminalO (stateOf w t) = true → taskCore (exec n w c) t = taskCore w t := by
  intro n
  induction n with
  | zero => intro w c t _; rfl
  | succ n ih =>
    intro w c t ht
    have hterm : ∀ w1 : World, taskCore w1 t = taskCore w t → isTerminalO (stateOf w1 t) = true := by
      intro w1 hcore
      rw [stateOf_taskCore, hcore, ← stateOf_taskCore]
      exact ht
    cases c with
    | noop => rfl
    | start u =>
      simp only [exec]
      split
      · rfl
      rename_i r heq
      split
      · rfl
      rename_i st heq2
      by_cases hut : u = t
      · subst hut
        exfalso
        have hs : stateOf w u = some r.state := by simp [stateOf, heq]
        rw [hs] at ht
        simp only [isTerminalO] at ht
        rw [isTerminal_smStart ht] at heq2
        exact Option.noConfusion heq2
      · have htu : t ≠ u := fun h => hut h.symm
        have h1 : taskCore (pushLog (updState w u st) (.trans u r.state st)) t = taskCore w t := by
          rw [taskCore_pushLog]
          exact taskCore_updTask_ne _ _ _ _ htu
        split
        · exact h1
        · rw [ih _ _ _ (hterm _ h1)]; exact h1
        · rw [ih _ _ _ (hterm _ h1)]; exact h1
    | resolve u v =>
      simp only [exec]
      split
      · rfl
      rename_i r heq
      split
      · rfl
      rename_i st heq2
      by_cases hut : u = t
      · subst hut
        exfalso
        have hs : stateOf w u = some r.state := by simp [stateOf, heq]
        rw [hs] at ht
        simp only [isTerminalO] at ht
        rw [isTerminal_smResolve ht] at heq2
        exact Option.noConfusion heq2
      · have htu : t ≠ u := fun h => hut h.symm
        have h1 : taskCore (pushLog (updTask w u fun q => { q with state := st, result := some v }) (.trans u r.state st)) t = taskCore w t := by
          rw [taskCore_pushLog]
          exact taskCore_updTask_ne _ _ _ _ htu
        have h2 := ih _ (.haltChildren u false) t (hterm _ h1)
        rw [ih _ (.resume u) t (hterm _ (h2.trans h1)), h2, h1]
    | reject u e =>
      simp only [exec]
      split
      · rfl
      rename_i r heq
      split
      · rfl
      rename_i st heq2
      by_cases hut : u = t
      · subst hut
        exfalso
        have hs : stateOf w u = some r.state := by simp [stateOf, heq]
        rw [hs] at ht
        simp only [isTerminalO] at ht
        rw [isTerminal_smReject ht] at heq2
        exact Option.noConfusion heq2
      · have htu : t ≠ u := fun h => hut h.symm
        have h1 : taskCore (pushLog (updTask w u fun q => { q with state := st, result := none, error := some e }) (.trans u r.state st)) t = taskCore w t := by
          rw [taskCore_pushLog]
          exact taskCore_updTask_ne _ _ _ _ htu
        have h2 := ih _ (.haltChildren u true) t (hterm _ h1)
        rw [ih _ (.resume u) t (hterm _ (h2.trans h1)), h2, h1]
    | halted u =>
      simp only [exec]
      split
      · rfl
      rename_i r heq
      split
      · rfl
      rename_i st heq2
      by_cases hut : u = t
      · subst hut
        exfalso
        have hs : stateOf w u = some r.state := by simp [stateOf, heq]
        rw [hs] at ht
        simp only [isTerminalO] at ht
        rw [isTerminal_smHalt ht] at heq2
        exact Option.noConfusion heq2
      · have htu : t ≠ u := fun h => hut h.symm
        have h1 : taskCore (pushLog (updState w u st) (.trans u r.state st)) t = taskCore w t := by
          rw [taskCore_pushLog]
          exact taskCore_updTask_ne _ _ _ _ htu
        have h2 := ih _ (.haltChildren u true) t (hterm _ h1)
        rw [ih _ (.resume u) t (hterm _ (h2.trans h1)), h2, h1]
    | halt u =>
      simp only [exec]
      split
      · rfl
      split
      · exact ih _ _ _ ht
      · rfl
    | haltChildren u force =>
      simp only [exec]
      split
      · rfl
      split
      · rfl
      rename_i cId heq2
      have h1 : taskCore (addTrapperW w cId (.haltCont u force)) t = taskCore w t :=
        taskCore_addTrapperW ..
      rw [ih _ _ _ (hterm _ h1), h1]
    | trap p ch =>
      simp only [exec]
      split
      · rename_i rp rc heqp heqc
        split
        · rename_i hmem
          have h1 : taskCore (if rc.state = .errored ∧ rc.options.ignoreError = false
              ∧ rp.options.ignoreChildErrors = false then exec n w (.reject p (rc.error.getD 0)) else w) t = taskCore w t := by
            split
            · exact ih _ _ _ ht
            · rfl
          have h2 : taskCore (unlinkW (if rc.state = .errored ∧ rc.options.ignoreError = false
              ∧ rp.options.ignoreChildErrors = false then exec n w (.reject p (rc.error.getD 0)) else w) p ch) t = taskCore w t := by
            rw [taskCore_unlinkW]; exact h1
          rw [ih _ (.resume p) t (hterm _ h2)]
          exact h2
        · exact ih _ _ _ ht
      · rfl
    | resume u =>
      simp only [exec]
      split
      · rfl
      rename_i r heq
      split
      · rename_i hguard
        by_cases hut : u = t
        · subst hut
          exfalso
          have hs : stateOf w u = some r.state := by simp [stateOf, heq]
          rw [hs] at ht
          simp only [isTerminalO] at ht
          rw [isTerminal_not_finishing ht] at hguard
          exact Bool.noConfusion hguard.1
        · have htu : t ≠ u := fun h => hut h.symm
          have h1 : taskCore (pushLogs (pushLog (updState w u (finishSt r.state)) (.trans u r.state (finishSt r.state))) (r.ensures.map (fun h => .ensureFired u h))) t = taskCore w t := by
            rw [taskCore_pushLogs, taskCore_pushLog]
            exact taskCore_updTask_ne _ _ _ _ htu
          have h2 := ih _ (.drainTrappers u) t (hterm _ h1)
          have h3 : taskCore (updTask (exec n (pushLogs (pushLog (updState w u (finishSt r.state)) (.trans u r.state (finishSt r.state))) (r.ensures.map (fun h => .ensureFired u h))) (.drainTrappers u)) u (fun q => { q with ensures := [], trappers := [] })) t = taskCore w t := by
            rw [taskCore_updTask _ _ _ _ (fun r => by simp), h2, h1]
          split
          · exact h3
          · split
            · unfold setSettled
              rw [taskCore_updTask_ne _ _ _ _ htu]
              exact h3
            · split
              · unfold setSettled
                rw [taskCore_updTask_ne _ _ _ _ htu]
                exact h3
              · split
                · unfold setSettled
                  rw [taskCore_updTask_ne _ _ _ _ htu]
                  exact h3
                · exact h3
      · rfl
    | drainTrappers u =>
      simp only [exec]
      split
      · rfl
      rename_i r heq
      split
      · rfl
      rename_i tr rest heq2
      have h1 : taskCore (pushLog (updTask w u fun q => { q with trappers := rest }) (.trapperFired u tr)) t = taskCore w t := by
        rw [taskCore_pushLog]
        exact taskCore_updTask _ _ _ _ (fun r => by simp)
      have h2 := ih _ (callOfTrapper u tr) t (hterm _ h1)
      rw [ih _ (.drainTrappers u) t (hterm _ (h2.trans h1)), h2, h1]

end Effection

namespace Effection

theorem childrenOf_updTask_keep (w : World) (v u : Nat) (f : TaskRec → TaskRec)
    (hf : ∀ r, (f r).children = r.children) :
    childrenOf (updTask w v f) u = childrenOf w u := by
  unfold childrenOf
  rw [lookupT_updTask]
  by_cases h : u = v
  · subst h
    simp only [if_pos rfl]
    cases lookupT w u with
    | none => rfl
    | some r => simp [hf r]
  · simp [h]

theorem childrenOf_pushLog (w : World) (e : Event) (u : Nat) :
    childrenOf (pushLog w e) u = childrenOf w u := rfl

theorem childrenOf_pushLogs (w : World) (es : List Event) (u : Nat) :
    childrenOf (pushLogs w es) u = childrenOf w u := rfl

theorem childrenOf_setSettled (w : World) (v u : Nat) (o : Settle) :
    childrenOf (setSettled w v o) u = childrenOf w u := by
  unfold setSettled
  exact childrenOf_updTask_keep _ _ _ _ (fun r => by cases h : r.settled <;> simp)

theorem childrenOf_addTrapperW (w : World) (v u : Nat) (tr : Trapper) :
    childrenOf (addTrapperW w v tr) u = childrenOf w u := by
  unfold addTrapperW
  exact childrenOf_updTask_keep _ _ _ _ (fun r => by simp)

theorem childrenOf_removeTrapperW (w : World) (v u : Nat) (tr : Trapper) :
    childrenOf (removeTrapperW w v tr) u = childrenOf w u := by
  unfold removeTrapperW
  exact childrenOf_updTask_keep _ _ _ _ (fun r => by simp)

theorem childrenOf_updTask_erase (w : World) (p c u : Nat) :
    List.Sublist (childrenOf (updTask w p (fun r => { r with children := r.children.erase c })) u)
      (childrenOf w u) := by
  by_cases h : u = p
  · subst h
    simp only [childrenOf, lookupT_updTask_self]
    cases hl : lookupT w u with
    | none => simp
    | some r =>
      simp only [Option.map]
      exact List.erase_sublist _ _
  · unfold childrenOf
    rw [lookupT_updTask_ne _ _ _ _ h]

theorem childrenOf_unlinkW_sublist (w : World) (p c u : Nat) :
    List.Sublist (childrenOf (unlinkW w p c) u) (childrenOf w u) := by
  unfold unlinkW
  split
  · exact List.Sublist.refl _
  · split
    · rw [childrenOf_pushLog]
      exact (childrenOf_updTask_erase _ p c u).trans
        (by rw [childrenOf_removeTrapperW])
    · exact List.Sublist.refl _

theorem exec_children_sublist :
    ∀ (n : Nat) (w : World) (c : Call) (u : Nat),
      List.Sublist (childrenOf (exec n w c) u) (childrenOf w u) := by
  intro n
  induction n with
  | zero => intro w c u; exact List.Sublist.refl _
  | succ n ih =>
    intro w c u
    cases c with
    | noop => exact List.Sublist.refl _
    | start t =>
      simp only [exec]
      split
      · exact List.Sublist.refl _
      · split
        · exact List.Sublist.refl _
        · have h1 : ∀ st ev, childrenOf (pushLog (updState w t st) ev) u = childrenOf w u := by
            intro st ev
            rw [childrenOf_pushLog]
            exact childrenOf_updTask_keep _ _ _ _ (fun r => by simp)
          split
          · rw [h1]
          · exact (ih ..).trans (by rw [h1])
          · exact (ih ..).trans (by rw [h1])
    | resolve t v =>
      simp only [exec]
      split
      · exact List.Sublist.refl _
      · split
        · exact List.Sublist.refl _
        · have h1 : ∀ st ev, childrenOf (pushLog (updTask w t fun q => { q with state := st, result := some v }) ev) u = childrenOf w u := by
            intro st ev
            rw [childrenOf_pushLog]
            exact childrenOf_updTask_keep _ _ _ _ (fun r => by simp)
          exact (ih ..).trans ((ih ..).trans (by rw [h1]))
    | reject t e =>
      simp only [exec]
      split
      · exact List.Sublist.refl _
      · split
        · exact List.Sublist.refl _
        · have h1 : ∀ st ev, childrenOf (pushLog (updTask w t fun q => { q with state := st, result := none, error := some e }) ev) u = childrenOf w u := by
            intro st ev
            rw [childrenOf_pushLog]
            exact childrenOf_updTask_keep _ _ _ _ (fun r => by simp)
          exact (ih ..).trans ((ih ..).trans (by rw [h1]))
    | halted t =>
      simp only [exec]
      split
      · exact List.Sublist.refl _
      · split
        · exact List.Sublist.refl _
        · have h1 : ∀ st ev, childrenOf (pushLog (updState w t st) ev) u = childrenOf w u := by
            intro st ev
            rw [childrenOf_pushLog]
            exact childrenOf_updTask_keep _ _ _ _ (fun r => by simp)
          exact (ih ..).trans ((ih ..).trans (by rw [h1]))
    | halt t =>
      simp only [exec]
      split
      · exact List.Sublist.refl _
      · split
        · exact ih ..
        · exact List.Sublist.refl _
    | haltChildren t force =>
      simp only [exec]
      split
      · exact List.Sublist.refl _
      · split
        · exact List.Sublist.refl _
        · exact (ih ..).trans (by rw [childrenOf_addTrapperW])
    | trap p ch =>
      simp only [exec]
      split
      · split
        · refine (ih ..).trans ((childrenOf_unlinkW_sublist ..).trans ?_)
          split
          · exact ih ..
          · exact List.Sublist.refl _
        · exact ih ..
      · exact List.Sublist.refl _
    | resume t =>
      simp only [exec]
      split
      · exact List.Sublist.refl _
      · split
        · have h1 : ∀ st ev es, childrenOf (pushLogs (pushLog (updState w t st) ev) es) u = childrenOf w u := by
            intro st ev es
            rw [childrenOf_pushLogs, childrenOf_pushLog]
            exact childrenOf_updTask_keep _ _ _ _ (fun r => by simp)
          have h4 : ∀ w3 : World, childrenOf (updTask w3 t (fun q => { q with ensures := [], trappers := [] })) u = childrenOf w3 u := by
            intro w3
            exact childrenOf_updTask_keep _ _ _ _ (fun r => by simp)
          split
          · rw [h4]
            exact (ih ..).trans (by rw [h1])
          · split
            · rw [childrenOf_setSettled, h4]
              exact (ih ..).trans (by rw [h1])
            · split
              · rw [childrenOf_setSettled, h4]
                exact (ih ..).trans (by rw [h1])
              · split
                · rw [childrenOf_setSettled, h4]
                  exact (ih ..).trans (by rw [h1])
                · rw [h4]
                  exact (ih ..).trans (by rw [h1])
        · exact List.Sublist.refl _
    | drainTrappers t =>
      simp only [exec]
      split
      · exact List.Sublist.refl _
      · split
        · exact List.Sublist.refl _
        · have h1 : ∀ rest ev, childrenOf (pushLog (updTask w t fun q => { q with trappers := rest }) ev) u = childrenOf w u := by
            intro rest ev
            rw [childrenOf_pushLog]
            exact childrenOf_updTask_keep _ _ _ _ (fun r => by simp)
          exact (ih ..).trans ((ih ..).trans (by rw [h1]))

end Effection

namespace Effection

theorem newEvents_of_append {w w1 : World} {l : List Event} (h : w1.log = w.log ++ l) :
    newEvents w w1 = l := by
  simp [newEvents, h]

theorem mem_newEvents_split {w w1 w2 : World} (h1 : logExt w w1) (h2 : logExt w1 w2)
    {e : Event} (he : e ∈ newEvents w w2) : e ∈ newEvents w w1 ∨ e ∈ newEvents w1 w2 := by
  obtain ⟨l1, e1⟩ := h1
  obtain ⟨l2, e2⟩ := h2
  have h3 : w2.log = w.log ++ (l1 ++ l2) := by rw [e2, e1, List.append_assoc]
  rw [newEvents_of_append h3] at he
  rw [newEvents_of_append e1, newEvents_of_append e2]
  exact List.mem_append.mp he

theorem forall_newEvents_comp {w w1 w2 : World} (h1 : logExt w w1) (h2 : logExt w1 w2)
    {P : Event → Prop} (p1 : ∀ e ∈ newEvents w w1, P e) (p2 : ∀ e ∈ newEvents w1 w2, P e) :
    ∀ e ∈ newEvents w w2, P e := by
  intro e he
  rcases mem_newEvents_split h1 h2 he with h | h
  · exact p1 e h
  · exact p2 e h

theorem forall_newEvents_of_log_eq {w w1 : World} (h : w1.log = w.log) {P : Event → Prop} :
    ∀ e ∈ newEvents w w1, P e := by
  intro e he
  rw [newEvents_of_append (l := []) (by simp [h])] at he
  cases he

theorem forall_newEvents_single {w w1 : World} {ev : Event} (h : w1.log = w.log ++ [ev])
    {P : Event → Prop} (hp : P ev) : ∀ e ∈ newEvents w w1, P e := by
  intro e he
  rw [newEvents_of_append h] at he
  simp at he
  subst he
  exact hp

theorem forall_newEvents_list {w w1 : World} {l : List Event} (h : w1.log = w.log ++ l)
    {P : Event → Prop} (hp : ∀ e ∈ l, P e) : ∀ e ∈ newEvents w w1, P e := by
  intro e he
  rw [newEvents_of_append h] at he
  exact hp e he

theorem terminal_of_lookup {w : World} {t : Nat} {r : TaskRec} (heq : lookupT w t = some r)
    (ht : isTerminalO (stateOf w t) = true) : isTerminal r.state = true := by
  simp [stateOf, heq, isTerminalO] at ht
  exact ht

end Effection

namespace Effection

theorem exec_no_ensure_trans :
    ∀ (n : Nat) (w : World) (c : Call) (t : Nat), isTerminalO (stateOf w t) = true →
      ∀ e ∈ newEvents w (exec n w c),
        isEnsureOf t e = false ∧ isTransOf t e = false := by
  intro n
  induction n with
  | zero => intro w c t _; exact forall_newEvents_of_log_eq rfl
  | succ n ih =>
    intro w c t ht
    have hterm : ∀ w1 : World, taskCore w1 t = taskCore w t →
        isTerminalO (stateOf w1 t) = true := by
      intro w1 hcore
      rw [stateOf_taskCore, hcore, ← stateOf_taskCore]
      exact ht
    cases c with
    | noop => exact forall_newEvents_of_log_eq rfl
    | start u =>
      simp only [exec]
      split
      · exact forall_newEvents_of_log_eq rfl
      rename_i r heq
      split
      · exact forall_newEvents_of_log_eq rfl
      rename_i st heq2
      by_cases hut : u = t
      · subst hut
        rw [isTerminal_smStart (terminal_of_lookup heq ht)] at heq2
        exact Option.noConfusion heq2
      · have htu : t ≠ u := fun h => hut h.symm
        have hev : isEnsureOf t (Event.trans u r.state st) = false
            ∧ isTransOf t (Event.trans u r.state st) = false := by
          simp [isEnsureOf, isTransOf, hut]
        have hlog : (pushLog (updState w u st) (.trans u r.state st)).log
            = w.log ++ [Event.trans u r.state st] := rfl
        have seg1 : ∀ e ∈ newEvents w (pushLog (updState w u st) (.trans u r.state st)),
            isEnsureOf t e = false ∧ isTransOf t e = false :=
          forall_newEvents_single hlog hev
        have hcore1 : taskCore (pushLog (updState w u st) (.trans u r.state st)) t
            = taskCore w t := by
          rw [taskCore_pushLog]
          exact taskCore_updTask_ne _ _ _ _ htu
        split
        · exact seg1
        · exact forall_newEvents_comp ⟨_, hlog⟩ (logExt_exec ..) seg1
            (ih _ _ t (hterm _ hcore1))
        · exact forall_newEvents_comp ⟨_, hlog⟩ (logExt_exec ..) seg1
            (ih _ _ t (hterm _ hcore1))
    | resolve u v =>
      simp only [exec]
      split
      · exact forall_newEvents_of_log_eq rfl
      rename_i r heq
      split
      · exact forall_newEvents_of_log_eq rfl
      rename_i st heq2
      by_cases hut : u = t
      · subst hut
        rw [isTerminal_smResolve (terminal_of_lookup heq ht)] at heq2
        exact Option.noConfusion heq2
      · have htu : t ≠ u := fun h => hut h.symm
        have hev : isEnsureOf t (Event.trans u r.state st) = false
            ∧ isTransOf t (Event.trans u r.state st) = false := by
          simp [isEnsureOf, isTransOf, hut]
        have hlog : (pushLog (updTask w u fun q => { q with state := st, result := some v })
            (.trans u r.state st)).log = w.log ++ [Event.trans u r.state st] := rfl
        have seg1 : ∀ e ∈ newEvents w (pushLog (updTask w u fun q => { q with state := st, result := some v }) (.trans u r.state st)),
            isEnsureOf t e = false ∧ isTransOf t e = false :=
          forall_newEvents_single hlog hev
        have hcore1 : taskCore (pushLog (updTask w u fun q => { q with state := st, result := some v }) (.trans u r.state st)) t = taskCore w t := by
          rw [taskCore_pushLog]
          exact taskCore_updTask_ne _ _ _ _ htu
        have hterm1 := hterm _ hcore1
        have seg2 := ih _ (.haltChildren u false) t hterm1
        have hterm2 := hterm _ ((exec_terminal_stable n _ (.haltChildren u false) t hterm1).trans hcore1)
        have seg3 := ih _ (.resume u) t hterm2
        exact forall_newEvents_comp
          (logExt_trans ⟨_, hlog⟩ (logExt_exec ..)) (logExt_exec ..)
          (forall_newEvents_comp ⟨_, hlog⟩ (logExt_exec ..) seg1 seg2) seg3
    | reject u e0 =>
      simp only [exec]
      split
      · exact forall_newEvents_of_log_eq rfl
      rename_i r heq
      split
      · exact forall_newEvents_of_log_eq rfl
      rename_i st heq2
      by_cases hut : u = t
      · subst hut
        rw [isTerminal_smReject (terminal_of_lookup heq ht)] at heq2
        exact Option.noConfusion heq2
      · have htu : t ≠ u := fun h => hut h.symm
        have hev : isEnsureOf t (Event.trans u r.state st) = false
            ∧ isTransOf t (Event.trans u r.state st) = false := by
          simp [isEnsureOf, isTransOf, hut]
        have hlog : (pushLog (updTask w u fun q => { q with state := st, result := none, error := some e0 })
            (.trans u r.state st)).log = w.log ++ [Event.trans u r.state st] := rfl
        have seg1 : ∀ e ∈ newEvents w (pushLog (updTask w u fun q => { q with state := st, result := none, error := some e0 }) (.trans u r.state st)),
            isEnsureOf t e = false ∧ isTransOf t e = false :=
          forall_newEvents_single hlog hev
        have hcore1 : taskCore (pushLog (updTask w u fun q => { q with state := st, result := none, error := some e0 }) (.trans u r.state st)) t = taskCore w t := by
          rw [taskCore_pushLog]
          exact taskCore_updTask_ne _ _ _ _ htu
        have hterm1 := hterm _ hcore1
        have seg2 := ih _ (.haltChildren u true) t hterm1
        have hterm2 := hterm _ ((exec_terminal_stable n _ (.haltChildren u true) t hterm1).trans hcore1)
        have seg3 := ih _ (.resume u) t hterm2
        exact forall_newEvents_comp
          (logExt_trans ⟨_, hlog⟩ (logExt_exec ..)) (logExt_exec ..)
          (forall_newEvents_comp ⟨_, hlog⟩ (logExt_exec ..) seg1 seg2) seg3
    | halted u =>
      simp only [exec]
      split
      · exact forall_newEvents_of_log_eq rfl
      rename_i r heq
      split
      · exact forall_newEvents_of_log_eq rfl
      rename_i st heq2
      by_cases hut : u = t
      · subst hut
        rw [isTerminal_smHalt (terminal_of_lookup heq ht)] at heq2
        exact Option.noConfusion heq2
      · have htu : t ≠ u := fun h => hut h.symm
        have hev : isEnsureOf t (Event.trans u r.state st) = false
            ∧ isTransOf t (Event.trans u r.state st) = false := by
          simp [isEnsureOf, isTransOf, hut]
        have hlog : (pushLog (updState w u st) (.trans u r.state st)).log
            = w.log ++ [Event.trans u r.state st] := rfl
        have seg1 : ∀ e ∈ newEvents w (pushLog (updState w u st) (.trans u r.state st)),
            isEnsureOf t e = false ∧ isTransOf t e = false :=
          forall_newEvents_single hlog hev
        have hcore1 : taskCore (pushLog (updState w u st) (.trans u r.state st)) t
            = taskCore w t := by
          rw [taskCore_pushLog]
          exact taskCore_updTask_ne _ _ _ _ htu
        have hterm1 := hterm _ hcore1
        have seg2 := ih _ (.haltChildren u true) t hterm1
        have hterm2 := hterm _ ((exec_terminal_stable n _ (.haltChildren u true) t hterm1).trans hcore1)
        have seg3 := ih _ (.resume u) t hterm2
        exact forall_newEvents_comp
          (logExt_trans ⟨_, hlog⟩ (logExt_exec ..)) (logExt_exec ..)
          (forall_newEvents_comp ⟨_, hlog⟩ (logExt_exec ..) seg1 seg2) seg3
    | halt u =>
      simp only [exec]
      split
      · exact forall_newEvents_of_log_eq rfl
      split
      · exact ih _ _ t ht
      · exact forall_newEvents_of_log_eq rfl
    | haltChildren u force =>
      simp only [exec]
      split
      · exact forall_newEvents_of_log_eq rfl
      split
      · exact forall_newEvents_of_log_eq rfl
      rename_i cId heq2
      have hcore1 : taskCore (addTrapperW w cId (.haltCont u force)) t = taskCore w t :=
        taskCore_addTrapperW ..
      exact forall_newEvents_comp (logExt_addTrapperW ..) (logExt_exec ..)
        (forall_newEvents_of_log_eq rfl) (ih _ _ t (hterm _ hcore1))
    | trap p ch =>
      simp only [exec]
      split
      · rename_i rp rc heqp heqc
        split
        · rename_i hmem
          have seg1 : ∀ e ∈ newEvents w (if rc.state = .errored ∧ rc.options.ignoreError = false
              ∧ rp.options.ignoreChildErrors = false then
                exec n w (.reject p (rc.error.getD 0)) else w),
              isEnsureOf t e = false ∧ isTransOf t e = false := by
            split
            · exact ih _ _ t ht
            · exact forall_newEvents_of_log_eq rfl
          have hcore1 : taskCore (if rc.state = .errored ∧ rc.options.ignoreError = false
              ∧ rp.options.ignoreChildErrors = false then
                exec n w (.reject p (rc.error.getD 0)) else w) t = taskCore w t := by
            split
            · exact exec_terminal_stable n _ _ t ht
            · rfl
          have hle1 : logExt w (if rc.state = .errored ∧ rc.options.ignoreError = false
              ∧ rp.options.ignoreChildErrors = false then
                exec n w (.reject p (rc.error.getD 0)) else w) := by
            split
            · exact logExt_exec ..
            · exact logExt_refl w
          have hev2 : isEnsureOf t (Event.unlinkE p ch) = false
              ∧ isTransOf t (Event.unlinkE p ch) = false := by
            simp [isEnsureOf, isTransOf]
          have seg2 : ∀ w1 : World, ∀ e ∈ newEvents w1 (unlinkW w1 p ch),
              isEnsureOf t e = false ∧ isTransOf t e = false := by
            intro w1
            unfold unlinkW
            split
            · exact forall_newEvents_of_log_eq rfl
            · split
              · exact forall_newEvents_single rfl hev2
              · exact forall_newEvents_of_log_eq rfl
          have hcore2 : ∀ w1 : World, taskCore (unlinkW w1 p ch) t = taskCore w1 t :=
            fun w1 => taskCore_unlinkW ..
          refine forall_newEvents_comp
            (logExt_trans hle1 (logExt_unlinkW ..)) (logExt_exec ..)
            (forall_newEvents_comp hle1 (logExt_unlinkW ..) seg1 (seg2 _))
            (ih _ (.resume p) t (hterm _ ((hcore2 _).trans hcore1)))
        · exact ih _ (.resume p) t ht
      · exact forall_newEvents_of_log_eq rfl
    | resume u =>
      simp only [exec]
      split
      · exact forall_newEvents_of_log_eq rfl
      rename_i r heq
      split
      · rename_i hguard
        by_cases hut : u = t
        · subst hut
          exfalso
          have := isTerminal_not_finishing (terminal_of_lookup heq ht)
          rw [this] at hguard
          exact Bool.noConfusion hguard.1
        · have htu : t ≠ u := fun h => hut h.symm
          have hlog : (pushLogs (pushLog (updState w u (finishSt r.state))
              (.trans u r.state (finishSt r.state)))
              (r.ensures.map (fun h => .ensureFired u h))).log
              = w.log ++ ([Event.trans u r.state (finishSt r.state)]
                  ++ r.ensures.map (fun h => Event.ensureFired u h)) := by
            simp [pushLogs_log, pushLog_log, updState, updTask_log, List.append_assoc]
          have seg1 : ∀ e ∈ newEvents w (pushLogs (pushLog (updState w u (finishSt r.state))
              (.trans u r.state (finishSt r.state)))
              (r.ensures.map (fun h => .ensureFired u h))),
              isEnsureOf t e = false ∧ isTransOf t e = false := by
            refine forall_newEvents_list hlog ?_
            intro e he
            rcases List.mem_append.mp he with h | h
            · simp at h
              subst h
              simp [isEnsureOf, isTransOf, hut]
            · simp at h
              obtain ⟨x, _, hx⟩ := h
              subst hx
              simp [isEnsureOf, isTransOf, hut]
          have hcore1 : taskCore (pushLogs (pushLog (updState w u (finishSt r.state))
              (.trans u r.state (finishSt r.state)))
              (r.ensures.map (fun h => .ensureFired u h))) t = taskCore w t := by
            rw [taskCore_pushLogs, taskCore_pushLog]
            exact taskCore_updTask_ne _ _ _ _ htu
          have hterm1 := hterm _ hcore1
          have seg2 := ih _ (.drainTrappers u) t hterm1
          have main : ∀ e ∈ newEvents w (updTask (exec n (pushLogs (pushLog (updState w u (finishSt r.state)) (.trans u r.state (finishSt r.state))) (r.ensures.map (fun h => .ensureFired u h))) (.drainTrappers u)) u (fun q => { q with ensures := [], trappers := [] })),
              isEnsureOf t e = false ∧ isTransOf t e = false := by
            refine forall_newEvents_comp (logExt_trans ⟨_, hlog⟩ (logExt_exec ..))
              (logExt_updTask ..) ?_ (forall_newEvents_of_log_eq rfl)
            exact forall_newEvents_comp ⟨_, hlog⟩ (logExt_exec ..) seg1 seg2
          have hleW4 : logExt w (updTask (exec n (pushLogs (pushLog (updState w u (finishSt r.state)) (.trans u r.state (finishSt r.state))) (r.ensures.map (fun h => .ensureFired u h))) (.drainTrappers u)) u (fun q => { q with ensures := [], trappers := [] })) :=
            logExt_trans (logExt_trans ⟨_, hlog⟩ (logExt_exec ..)) (logExt_updTask ..)
          split
          · exact main
          · split
            · exact forall_newEvents_comp hleW4 (logExt_setSettled ..) main
                (forall_newEvents_of_log_eq rfl)
            · split
              · exact forall_newEvents_comp hleW4 (logExt_setSettled ..) main
                  (forall_newEvents_of_log_eq rfl)
              · split
                · exact forall_newEvents_comp hleW4 (logExt_setSettled ..) main
                    (forall_newEvents_of_log_eq rfl)
                · exact main
      · exact forall_newEvents_of_log_eq rfl
    | drainTrappers u =>
      simp only [exec]
      split
      · exact forall_newEvents_of_log_eq rfl
      rename_i r heq
      split
      · exact forall_newEvents_of_log_eq rfl
      rename_i tr rest heq2
      have hev : isEnsureOf t (Event.trapperFired u tr) = false
          ∧ isTransOf t (Event.trapperFired u tr) = false := by
        simp [isEnsureOf, isTransOf]
      have hlog : (pushLog (updTask w u fun q => { q with trappers := rest })
          (.trapperFired u tr)).log = w.log ++ [Event.trapperFired u tr] := rfl
      have seg1 : ∀ e ∈ newEvents w (pushLog (updTask w u fun q => { q with trappers := rest }) (.trapperFired u tr)),
          isEnsureOf t e = false ∧ isTransOf t e = false :=
        forall_newEvents_single hlog hev
      have hcore1 : taskCore (pushLog (updTask w u fun q => { q with trappers := rest })
          (.trapperFired u tr)) t = taskCore w t := by
        rw [taskCore_pushLog]
        exact taskCore_updTask _ _ _ _ (fun r => by simp)
      have hterm1 := hterm _ hcore1
      have seg2 := ih _ (callOfTrapper u tr) t hterm1
      have hterm2 := hterm _ ((exec_terminal_stable n _ (callOfTrapper u tr) t hterm1).trans hcore1)
      have seg3 := ih _ (.drainTrappers u) t hterm2
      exact forall_newEvents_comp
        (logExt_trans ⟨_, hlog⟩ (logExt_exec ..)) (logExt_exec ..)
        (forall_newEvents_comp ⟨_, hlog⟩ (logExt_exec ..) seg1 seg2) seg3

end Effection

namespace Effection

theorem callOfTrapper_ne_drain (u : Nat) (tr : Trapper) (t : Nat) :
    callOfTrapper u tr ≠ Call.drainTrappers t := by
  cases tr <;> simp [callOfTrapper]

theorem exec_no_trapper_of_terminal :
    ∀ (n : Nat) (w : World) (c : Call) (t : Nat), isTerminalO (stateOf w t) = true →
      c ≠ Call.drainTrappers t →
      ∀ e ∈ newEvents w (exec n w c), isTrapperOf t e = false := by
  intro n
  induction n with
  | zero => intro w c t _ _; exact forall_newEvents_of_log_eq rfl
  | succ n ih =>
    intro w c t ht hne
    have hterm : ∀ w1 : World, taskCore w1 t = taskCore w t →
        isTerminalO (stateOf w1 t) = true := by
      intro w1 hcore
      rw [stateOf_taskCore, hcore, ← stateOf_taskCore]
      exact ht
    cases c with
    | noop => exact forall_newEvents_of_log_eq rfl
    | start u =>
      simp only [exec]
      split
      · exact forall_newEvents_of_log_eq rfl
      rename_i r heq
      split
      · exact forall_newEvents_of_log_eq rfl
      rename_i st heq2
      by_cases hut : u = t
      · subst hut
        rw [isTerminal_smStart (terminal_of_lookup heq ht)] at heq2
        exact Option.noConfusion heq2
      · have hlog : (pushLog (updState w u st) (.trans u r.state st)).log
            = w.log ++ [Event.trans u r.state st] := rfl
        have seg1 : ∀ e ∈ newEvents w (pushLog (updState w u st) (.trans u r.state st)),
            isTrapperOf t e = false :=
          forall_newEvents_single hlog (by simp [isTrapperOf])
        have htu : t ≠ u := fun h => hut h.symm
        have hcore1 : taskCore (pushLog (updState w u st) (.trans u r.state st)) t
            = taskCore w t := by
          rw [taskCore_pushLog]
          exact taskCore_updTask_ne _ _ _ _ htu
        split
        · exact seg1
        · exact forall_newEvents_comp ⟨_, hlog⟩ (logExt_exec ..) seg1
            (ih _ _ t (hterm _ hcore1) (by simp))
        · exact forall_newEvents_comp ⟨_, hlog⟩ (logExt_exec ..) seg1
            (ih _ _ t (hterm _ hcore1) (by simp))
    | resolve u v =>
      simp only [exec]
      split
      · exact forall_newEvents_of_log_eq rfl
      rename_i r heq
      split
      · exact forall_newEvents_of_log_eq rfl
      rename_i st heq2
      by_cases hut : u = t
      · subst hut
        rw [isTerminal_smResolve (terminal_of_lookup heq ht)] at heq2
        exact Option.noConfusion heq2
      · have htu : t ≠ u := fun h => hut h.symm
        have hlog : (pushLog (updTask w u fun q => { q with state := st, result := some v })
            (.trans u r.state st)).log = w.log ++ [Event.trans u r.state st] := rfl
        have seg1 : ∀ e ∈ newEvents w (pushLog (updTask w u fun q => { q with state := st, result := some v }) (.trans u r.state st)),
            isTrapperOf t e = false :=
          forall_newEvents_single hlog (by simp [isTrapperOf])
        have hcore1 : taskCore (pushLog (updTask w u fun q => { q with state := st, result := some v }) (.trans u r.state st)) t = taskCore w t := by
          rw [taskCore_pushLog]
          exact taskCore_updTask_ne _ _ _ _ htu
        have hterm1 := hterm _ hcore1
        have seg2 := ih _ (.haltChildren u false) t hterm1 (by simp)
        have hterm2 := hterm _ ((exec_terminal_stable n _ (.haltChildren u false) t hterm1).trans hcore1)
        have seg3 := ih _ (.resume u) t hterm2 (by simp)
        exact forall_newEvents_comp
          (logExt_trans ⟨_, hlog⟩ (logExt_exec ..)) (logExt_exec ..)
          (forall_newEvents_comp ⟨_, hlog⟩ (logExt_exec ..) seg1 seg2) seg3
    | reject u e0 =>
      simp only [exec]
      split
      · exact forall_newEvents_of_log_eq rfl
      rename_i r heq
      split
      · exact forall_newEvents_of_log_eq rfl
      rename_i st heq2
      by_cases hut : u = t
      · subst hut
        rw [isTerminal_smReject (terminal_of_lookup heq ht)] at heq2
        exact Option.noConfusion heq2
      · have htu : t ≠ u := fun h => hut h.symm
        have hlog : (pushLog (updTask w u fun q => { q with state := st, result := none, error := some e0 })
            (.trans u r.state st)).log = w.log ++ [Event.trans u r.state st] := rfl
        have seg1 : ∀ e ∈ newEvents w (pushLog (updTask w u fun q => { q with state := st, result := none, error := some e0 }) (.trans u r.state st)),
            isTrapperOf t e = false :=
          forall_newEvents_single hlog (by simp [isTrapperOf])
        have hcore1 : taskCore (pushLog (updTask w u fun q => { q with state := st, result := none, error := some e0 }) (.trans u r.state st)) t = taskCore w t := by
          rw [taskCore_pushLog]
          exact taskCore_updTask_ne _ _ _ _ htu
        have hterm1 := hterm _ hcore1
        have seg2 := ih _ (.haltChildren u true) t hterm1 (by simp)
        have hterm2 := hterm _ ((exec_terminal_stable n _ (.haltChildren u true) t hterm1).trans hcore1)
        have seg3 := ih _ (.resume u) t hterm2 (by simp)
        exact forall_newEvents_comp
          (logExt_trans ⟨_, hlog⟩ (logExt_exec ..)) (logExt_exec ..)
          (forall_newEvents_comp ⟨_, hlog⟩ (logExt_exec ..) seg1 seg2) seg3
    | halted u =>
      simp only [exec]
      split
      · exact forall_newEvents_of_log_eq rfl
      rename_i r heq
      split
      · exact forall_newEvents_of_log_eq rfl
      rename_i st heq2
      by_cases hut : u = t
      · subst hut
        rw [isTerminal_smHalt (terminal_of_lookup heq ht)] at heq2
        exact Option.noConfusion heq2
      · have htu : t ≠ u := fun h => hut h.symm
        have hlog : (pushLog (updState w u st) (.trans u r.state st)).log
            = w.log ++ [Event.trans u r.state st] := rfl
        have seg1 : ∀ e ∈ newEvents w (pushLog (updState w u st) (.trans u r.state st)),
            isTrapperOf t e = false :=
          forall_newEvents_single hlog (by simp [isTrapperOf])
        have hcore1 : taskCore (pushLog (updState w u st) (.trans u r.state st)) t
            = taskCore w t := by
          rw [taskCore_pushLog]
          exact taskCore_updTask_ne _ _ _ _ htu
        have hterm1 := hterm _ hcore1
        have seg2 := ih _ (.haltChildren u true) t hterm1 (by simp)
        have hterm2 := hterm _ ((exec_terminal_stable n _ (.haltChildren u true) t hterm1).trans hcore1)
        have seg3 := ih _ (.resume u) t hterm2 (by simp)
        exact forall_newEvents_comp
          (logExt_trans ⟨_, hlog⟩ (logExt_exec ..)) (logExt_exec ..)
          (forall_newEvents_comp ⟨_, hlog⟩ (logExt_exec ..) seg1 seg2) seg3
    | halt u =>
      simp only [exec]
      split
      · exact forall_newEvents_of_log_eq rfl
      split
      · exact ih _ _ t ht (by simp)
      · exact forall_newEvents_of_log_eq rfl
    | haltChildren u force =>
      simp only [exec]
      split
      · exact forall_newEvents_of_log_eq rfl
      split
      · exact forall_newEvents_of_log_eq rfl
      rename_i cId heq2
      have hcore1 : taskCore (addTrapperW w cId (.haltCont u force)) t = taskCore w t :=
        taskCore_addTrapperW ..
      exact forall_newEvents_comp (logExt_addTrapperW ..) (logExt_exec ..)
        (forall_newEvents_of_log_eq rfl) (ih _ _ t (hterm _ hcore1) (by simp))
    | trap p ch =>
      simp only [exec]
      split
      · rename_i rp rc heqp heqc
        split
        · rename_i hmem
          have seg1 : ∀ e ∈ newEvents w (if rc.state = .errored ∧ rc.options.ignoreError = false
              ∧ rp.options.ignoreChildErrors = false then
                exec n w (.reject p (rc.error.getD 0)) else w),
              isTrapperOf t e = false := by
            split
            · exact ih _ _ t ht (by simp)
            · exact forall_newEvents_of_log_eq rfl
          have hcore1 : taskCore (if rc.state = .errored ∧ rc.options.ignoreError = false
              ∧ rp.options.ignoreChildErrors = false then
                exec n w (.reject p (rc.error.getD 0)) else w) t = taskCore w t := by
            split
            · exact exec_terminal_stable n _ _ t ht
            · rfl
          have hle1 : logExt w (if rc.state = .errored ∧ rc.options.ignoreError = false
              ∧ rp.options.ignoreChildErrors = false then
                exec n w (.reject p (rc.error.getD 0)) else w) := by
            split
            · exact logExt_exec ..
            · exact logExt_refl w
          have seg2 : ∀ w1 : World, ∀ e ∈ newEvents w1 (unlinkW w1 p ch),
              isTrapperOf t e = false := by
            intro w1
            unfold unlinkW
            split
            · exact forall_newEvents_of_log_eq rfl
            · split
              · exact forall_newEvents_single rfl (by simp [isTrapperOf])
              · exact forall_newEvents_of_log_eq rfl
          refine forall_newEvents_comp
            (logExt_trans hle1 (logExt_unlinkW ..)) (logExt_exec ..)
            (forall_newEvents_comp hle1 (logExt_unlinkW ..) seg1 (seg2 _))
            (ih _ (.resume p) t (hterm _ ((taskCore_unlinkW ..).trans hcore1)) (by simp))
        · exact ih _ (.resume p) t ht (by simp)
      · exact forall_newEvents_of_log_eq rfl
    | resume u =>
      simp only [exec]
      split
      · exact forall_newEvents_of_log_eq rfl
      rename_i r heq
      split
      · rename_i hguard
        by_cases hut : u = t
        · subst hut
          exfalso
          have := isTerminal_not_finishing (terminal_of_lookup heq ht)
          rw [this] at hguard
          exact Bool.noConfusion hguard.1
        · have htu : t ≠ u := fun h => hut h.symm
          have hlog : (pushLogs (pushLog (updState w u (finishSt r.state))
              (.trans u r.state (finishSt r.state)))
              (r.ensures.map (fun h => .ensureFired u h))).log
              = w.log ++ ([Event.trans u r.state (finishSt r.state)]
                  ++ r.ensures.map (fun h => Event.ensureFired u h)) := by
            simp [pushLogs_log, pushLog_log, updState, updTask_log, List.append_assoc]
          have seg1 : ∀ e ∈ newEvents w (pushLogs (pushLog (updState w u (finishSt r.state))
              (.trans u r.state (finishSt r.state)))
              (r.ensures.map (fun h => .ensureFired u h))),
              isTrapperOf t e = false := by
            refine forall_newEvents_list hlog ?_
            intro e he
            rcases List.mem_append.mp he with h | h
            · simp at h
              subst h
              simp [isTrapperOf]
            · simp at h
              obtain ⟨x, _, hx⟩ := h
              subst hx
              simp [isTrapperOf]
          have hcore1 : taskCore (pushLogs (pushLog (updState w u (finishSt r.state))
              (.trans u r.state (finishSt r.state)))
              (r.ensures.map (fun h => .ensureFired u h))) t = taskCore w t := by
            rw [taskCore_pushLogs, taskCore_pushLog]
            exact taskCore_updTask_ne _ _ _ _ htu
          have hterm1 := hterm _ hcore1
          have seg2 := ih _ (.drainTrappers u) t hterm1 (by simp [hut])
          have main : ∀ e ∈ newEvents w (updTask (exec n (pushLogs (pushLog (updState w u (finishSt r.state)) (.trans u r.state (finishSt r.state))) (r.ensures.map (fun h => .ensureFired u h))) (.drainTrappers u)) u (fun q => { q with ensures := [], trappers := [] })),
              isTrapperOf t e = false := by
            refine forall_newEvents_comp (logExt_trans ⟨_, hlog⟩ (logExt_exec ..))
              (logExt_updTask ..) ?_ (forall_newEvents_of_log_eq rfl)
            exact forall_newEvents_comp ⟨_, hlog⟩ (logExt_exec ..) seg1 seg2
          have hleW4 : logExt w (updTask (exec n (pushLogs (pushLog (updState w u (finishSt r.state)) (.trans u r.state (finishSt r.state))) (r.ensures.map (fun h => .ensureFired u h))) (.drainTrappers u)) u (fun q => { q with ensures := [], trappers := [] })) :=
            logExt_trans (logExt_trans ⟨_, hlog⟩ (logExt_exec ..)) (logExt_updTask ..)
          split
          · exact main
          · split
            · exact forall_newEvents_comp hleW4 (logExt_setSettled ..) main
                (forall_newEvents_of_log_eq rfl)
            · split
              · exact forall_newEvents_comp hleW4 (logExt_setSettled ..) main
                  (forall_newEvents_of_log_eq rfl)
              · split
                · exact forall_newEvents_comp hleW4 (logExt_setSettled ..) main
                    (forall_newEvents_of_log_eq rfl)
                · exact main
      · exact forall_newEvents_of_log_eq rfl
    | drainTrappers u =>
      have hut : u ≠ t := by
        intro h
        exact hne (by rw [h])
      simp only [exec]
      split
      · exact forall_newEvents_of_log_eq rfl
      rename_i r heq
      split
      · exact forall_newEvents_of_log_eq rfl
      rename_i tr rest heq2
      have hlog : (pushLog (updTask w u fun q => { q with trappers := rest })
          (.trapperFired u tr)).log = w.log ++ [Event.trapperFired u tr] := rfl
      have seg1 : ∀ e ∈ newEvents w (pushLog (updTask w u fun q => { q with trappers := rest }) (.trapperFired u tr)),
          isTrapperOf t e = false :=
        forall_newEvents_single hlog (by simp [isTrapperOf, hut])
      have hcore1 : taskCore (pushLog (updTask w u fun q => { q with trappers := rest })
          (.trapperFired u tr)) t = taskCore w t := by
        rw [taskCore_pushLog]
        exact taskCore_updTask _ _ _ _ (fun r => by simp)
      have hterm1 := hterm _ hcore1
      have seg2 := ih _ (callOfTrapper u tr) t hterm1 (callOfTrapper_ne_drain u tr t)
      have hterm2 := hterm _ ((exec_terminal_stable n _ (callOfTrapper u tr) t hterm1).trans hcore1)
      have seg3 := ih _ (.drainTrappers u) t hterm2 (by simp [hut])
      exact forall_newEvents_comp
        (logExt_trans ⟨_, hlog⟩ (logExt_exec ..)) (logExt_exec ..)
        (forall_newEvents_comp ⟨_, hlog⟩ (logExt_exec ..) seg1 seg2) seg3

end Effection

namespace Effection

theorem smStart_eq {s st : TState} (h : smStart s = some st) :
    s = .pending ∧ st = .running := by
  cases s <;> simp_all [smStart]

theorem smResolve_eq {s st : TState} (h : smResolve s = some st) :
    s = .running ∧ st = .completing := by
  cases s <;> simp_all [smResolve]

theorem smReject_eq {s st : TState} (h : smReject s = some st) :
    s = .running ∧ st = .erroring := by
  cases s <;> simp_all [smReject]

theorem smHalt_eq {s st : TState} (h : smHalt s = some st) :
    (s = .running ∨ s = .completing ∨ s = .erroring) ∧ st = .halting := by
  cases s <;> simp_all [smHalt]

theorem MutexInv_updTask {w : World} {u : Nat} {f : TaskRec → TaskRec} (hm : MutexInv w)
    (hf : ∀ r, lookupT w u = some r → fieldsOk r → fieldsOk (f r)) :
    MutexInv (updTask w u f) := by
  intro t r hr
  rw [lookupT_updTask] at hr
  by_cases h : t = u
  · rw [if_pos h] at hr
    cases hl : lookupT w u with
    | none => rw [hl] at hr; exact Option.noConfusion hr
    | some r0 =>
      rw [hl] at hr
      injection hr with hh
      subst hh
      exact hf r0 hl (hm u r0 hl)
  · rw [if_neg h] at hr
    exact hm t r hr

theorem MutexInv_pushLog {w : World} {e : Event} (hm : MutexInv w) :
    MutexInv (pushLog w e) := hm

theorem MutexInv_pushLogs {w : World} {es : List Event} (hm : MutexInv w) :
    MutexInv (pushLogs w es) := hm

theorem MutexInv_keepCore {w : World} {u : Nat} {f : TaskRec → TaskRec} (hm : MutexInv w)
    (hf : ∀ r, (f r).state = r.state ∧ (f r).result = r.result ∧ (f r).error = r.error) :
    MutexInv (updTask w u f) := by
  refine MutexInv_updTask hm ?_
  intro r _ hok
  unfold fieldsOk at hok ⊢
  rw [(hf r).1, (hf r).2.1, (hf r).2.2]
  exact hok

theorem MutexInv_unlinkW {w : World} (p c : Nat) (hm : MutexInv w) :
    MutexInv (unlinkW w p c) := by
  unfold unlinkW
  split
  · exact hm
  · split
    · exact MutexInv_pushLog (MutexInv_keepCore (MutexInv_keepCore hm (fun r => by simp))
        (fun r => by simp))
    · exact hm

theorem exec_MutexInv :
    ∀ (n : Nat) (w : World) (c : Call), MutexInv w → MutexInv (exec n w c) := by
  intro n
  induction n with
  | zero => intro w c hm; exact hm
  | succ n ih =>
    intro w c hm
    cases c with
    | noop => exact hm
    | start t =>
      simp only [exec]
      split
      · exact hm
      rename_i r heq
      split
      · exact hm
      rename_i st heq2
      have h1 : MutexInv (pushLog (updState w t st) (.trans t r.state st)) := by
        refine MutexInv_pushLog (MutexInv_updTask hm ?_)
        intro r0 hr0 hok
        rw [heq] at hr0
        injection hr0 with hh
        subst hh
        obtain ⟨hs1, hs2⟩ := smStart_eq heq2
        subst hs2
        have hok2 : r.result = none ∧ r.error = none := by
          unfold fieldsOk at hok
          rw [hs1] at hok
          exact hok
        exact hok2
      split
      · exact h1
      · exact ih _ _ h1
      · exact ih _ _ h1
    | resolve t v =>
      simp only [exec]
      split
      · exact hm
      rename_i r heq
      split
      · exact hm
      rename_i st heq2
      have h1 : MutexInv (pushLog (updTask w t fun q => { q with state := st, result := some v }) (.trans t r.state st)) := by
        refine MutexInv_pushLog (MutexInv_updTask hm ?_)
        intro r0 hr0 hok
        rw [heq] at hr0
        injection hr0 with hh
        subst hh
        obtain ⟨hs1, hs2⟩ := smResolve_eq heq2
        subst hs2
        have hok2 : r.result = none ∧ r.error = none := by
          unfold fieldsOk at hok
          rw [hs1] at hok
          exact hok
        exact ⟨⟨v, rfl⟩, hok2.2⟩
      exact ih _ _ (ih _ _ h1)
    | reject t e0 =>
      simp only [exec]
      split
      · exact hm
      rename_i r heq
      split
      · exact hm
      rename_i st heq2
      have h1 : MutexInv (pushLog (updTask w t fun q => { q with state := st, result := none, error := some e0 }) (.trans t r.state st)) := by
        refine MutexInv_pushLog (MutexInv_updTask hm ?_)
        intro r0 hr0 hok
        rw [heq] at hr0
        injection hr0 with hh
        subst hh
        obtain ⟨hs1, hs2⟩ := smReject_eq heq2
        subst hs2
        exact ⟨rfl, ⟨e0, rfl⟩⟩
      exact ih _ _ (ih _ _ h1)
    | halted t =>
      simp only [exec]
      split
      · exact hm
      rename_i r heq
      split
      · exact hm
      rename_i st heq2
      have h1 : MutexInv (pushLog (updState w t st) (.trans t r.state st)) := by
        refine MutexInv_pushLog (MutexInv_updTask hm ?_)
        intro r0 hr0 hok
        rw [heq] at hr0
        injection hr0 with hh
        subst hh
        obtain ⟨hs1, hs2⟩ := smHalt_eq heq2
        subst hs2
        rcases hs1 with h | h | h
        · have hok2 : r.result = none ∧ r.error = none := by
            unfold fieldsOk at hok
            rw [h] at hok
            exact hok
          exact Or.inl hok2.1
        · have hok2 : (∃ v, r.result = some v) ∧ r.error = none := by
            unfold fieldsOk at hok
            rw [h] at hok
            exact hok
          exact Or.inr hok2.2
        · have hok2 : r.result = none ∧ (∃ e1, r.error = some e1) := by
            unfold fieldsOk at hok
            rw [h] at hok
            exact hok
          exact Or.inl hok2.1
      exact ih _ _ (ih _ _ h1)
    | halt t =>
      simp only [exec]
      split
      · exact hm
      split
      · exact ih _ _ hm
      · exact hm
    | haltChildren t force =>
      simp only [exec]
      split
      · exact hm
      split
      · exact hm
      · exact ih _ _ (MutexInv_keepCore hm (fun r => by simp))
    | trap p ch =>
      simp only [exec]
      split
      · rename_i rp rc heqp heqc
        split
        · refine ih _ _ (MutexInv_unlinkW _ _ ?_)
          split
          · exact ih _ _ hm
          · exact hm
        · exact ih _ _ hm
      · exact hm
    | resume t =>
      simp only [exec]
      split
      · exact hm
      rename_i r heq
      split
      · rename_i hguard
        have h1 : MutexInv (pushLogs (pushLog (updState w t (finishSt r.state))
            (.trans t r.state (finishSt r.state)))
            (r.ensures.map (fun h => .ensureFired t h))) := by
          refine MutexInv_pushLogs (MutexInv_pushLog (MutexInv_updTask hm ?_))
          intro r0 hr0 hok
          rw [heq] at hr0
          injection hr0 with hh
          subst hh
          have hfin := hguard.1
          unfold fieldsOk at hok
          cases hs : r.state with
          | pending => rw [hs] at hfin; exact absurd hfin (by simp [isFinishing])
          | running => rw [hs] at hfin; exact absurd hfin (by simp [isFinishing])
          | completed => rw [hs] at hfin; exact absurd hfin (by simp [isFinishing])
          | errored => rw [hs] at hfin; exact absurd hfin (by simp [isFinishing])
          | halted => rw [hs] at hfin; exact absurd hfin (by simp [isFinishing])
          | completing =>
            rw [hs] at hok
            exact hok
          | erroring =>
            rw [hs] at hok
            exact hok
          | halting =>
            rw [hs] at hok
            exact hok
        have h3 := ih _ (.drainTrappers t) h1
        have h4 : MutexInv (updTask (exec n (pushLogs (pushLog (updState w t (finishSt r.state)) (.trans t r.state (finishSt r.state))) (r.ensures.map (fun h => .ensureFired t h))) (.drainTrappers t)) t (fun q => { q with ensures := [], trappers := [] })) :=
          MutexInv_keepCore h3 (fun r => by simp)
        split
        · exact h4
        · split
          · exact MutexInv_keepCore h4 (fun r => by cases h : r.settled <;> simp)
          · split
            · exact MutexInv_keepCore h4 (fun r => by cases h : r.settled <;> simp)
            · split
              · exact MutexInv_keepCore h4 (fun r => by cases h : r.settled <;> simp)
              · exact h4
      · exact hm
    | drainTrappers t =>
      simp only [exec]
      split
      · exact hm
      rename_i r heq
      split
      · exact hm
      rename_i tr rest heq2
      exact ih _ _ (ih _ _ (MutexInv_pushLog (MutexInv_keepCore hm (fun r => by simp))))

end Effection

namespace Effection

theorem TermInv_updTask {w : World} {u : Nat} {f : TaskRec → TaskRec} (hm : TermInv w)
    (hf : ∀ r, lookupT w u = some r → isTerminal (f r).state = true → (f r).children = []) :
    TermInv (updTask w u f) := by
  intro t r hr
  rw [lookupT_updTask] at hr
  by_cases h : t = u
  · rw [if_pos h] at hr
    cases hl : lookupT w u with
    | none => rw [hl] at hr; exact Option.noConfusion hr
    | some r0 =>
      rw [hl] at hr
      injection hr with hh
      subst hh
      exact hf r0 hl
  · rw [if_neg h] at hr
    exact hm t r hr

theorem TermInv_pushLog {w : World} {e : Event} (hm : TermInv w) :
    TermInv (pushLog w e) := hm

theorem TermInv_pushLogs {w : World} {es : List Event} (hm : TermInv w) :
    TermInv (pushLogs w es) := hm

theorem TermInv_keepSC {w : World} {u : Nat} {f : TaskRec → TaskRec} (hm : TermInv w)
    (hf : ∀ r, (f r).state = r.state ∧ (f r).children = r.children) :
    TermInv (updTask w u f) := by
  refine TermInv_updTask hm ?_
  intro r hr0 ht
  rw [(hf r).2]
  exact hm u r hr0 (by rw [← (hf r).1]; exact ht)

theorem TermInv_unlinkW {w : World} (p c : Nat) (hm : TermInv w) :
    TermInv (unlinkW w p c) := by
  unfold unlinkW
  split
  · exact hm
  · split
    · refine TermInv_pushLog (TermInv_updTask (TermInv_keepSC hm (fun r => by simp)) ?_)
      intro r hr0 ht
      simp only [] at ht ⊢
      have := TermInv_keepSC (u := c) hm (f := fun q => { q with trappers := q.trappers.erase (.trapOf p) }) (fun r => by simp)
      have hchild := this p r hr0 ht
      rw [hchild]
      simp
    · exact hm

theorem exec_TermInv :
    ∀ (n : Nat) (w : World) (c : Call), TermInv w → TermInv (exec n w c) := by
  intro n
  induction n with
  | zero => intro w c hm; exact hm
  | succ n ih =>
    intro w c hm
    cases c with
    | noop => exact hm
    | start t =>
      simp only [exec]
      split
      · exact hm
      rename_i r heq
      split
      · exact hm
      rename_i st heq2
      have h1 : TermInv (pushLog (updState w t st) (.trans t r.state st)) := by
        refine TermInv_pushLog (TermInv_updTask hm ?_)
        intro r0 hr0 ht
        obtain ⟨hs1, hs2⟩ := smStart_eq heq2
        subst hs2
        exact absurd ht (by simp [isTerminal])
      split
      · exact h1
      · exact ih _ _ h1
      · exact ih _ _ h1
    | resolve t v =>
      simp only [exec]
      split
      · exact hm
      rename_i r heq
      split
      · exact hm
      rename_i st heq2
      have h1 : TermInv (pushLog (updTask w t fun q => { q with state := st, result := some v }) (.trans t r.state st)) := by
        refine TermInv_pushLog (TermInv_updTask hm ?_)
        intro r0 hr0 ht
        obtain ⟨hs1, hs2⟩ := smResolve_eq heq2
        subst hs2
        exact absurd ht (by simp [isTerminal])
      exact ih _ _ (ih _ _ h1)
    | reject t e0 =>
      simp only [exec]
      split
      · exact hm
      rename_i r heq
      split
      · exact hm
      rename_i st heq2
      have h1 : TermInv (pushLog (updTask w t fun q => { q with state := st, result := none, error := some e0 }) (.trans t r.state st)) := by
        refine TermInv_pushLog (TermInv_updTask hm ?_)
        intro r0 hr0 ht
        obtain ⟨hs1, hs2⟩ := smReject_eq heq2
        subst hs2
        exact absurd ht (by simp [isTerminal])
      exact ih _ _ (ih _ _ h1)
    | halted t =>
      simp only [exec]
      split
      · exact hm
      rename_i r heq
      split
      · exact hm
      rename_i st heq2
      have h1 : TermInv (pushLog (updState w t st) (.trans t r.state st)) := by
        refine TermInv_pushLog (TermInv_updTask hm ?_)
        intro r0 hr0 ht
        obtain ⟨hs1, hs2⟩ := smHalt_eq heq2
        subst hs2
        exact absurd ht (by simp [isTerminal])
      exact ih _ _ (ih _ _ h1)
    | halt t =>
      simp only [exec]
      split
      · exact hm
      split
      · exact ih _ _ hm
      · exact hm
    | haltChildren t force =>
      simp only [exec]
      split
      · exact hm
      split
      · exact hm
      · exact ih _ _ (TermInv_keepSC hm (fun r => by simp))
    | trap p ch =>
      simp only [exec]
      split
      · rename_i rp rc heqp heqc
        split
        · refine ih _ _ (TermInv_unlinkW _ _ ?_)
          split
          · exact ih _ _ hm
          · exact hm
        · exact ih _ _ hm
      · exact hm
    | resume t =>
      simp only [exec]
      split
      · exact hm
      rename_i r heq
      split
      · rename_i hguard
        have h1 : TermInv (pushLogs (pushLog (updState w t (finishSt r.state))
            (.trans t r.state (finishSt r.state)))
            (r.ensures.map (fun h => .ensureFired t h))) := by
          refine TermInv_pushLogs (TermInv_pushLog (TermInv_updTask hm ?_))
          intro r0 hr0 ht
          rw [heq] at hr0
          injection hr0 with hh
          subst hh
          exact hguard.2
        have h3 := ih _ (.drainTrappers t) h1
        have h4 : TermInv (updTask (exec n (pushLogs (pushLog (updState w t (finishSt r.state)) (.trans t r.state (finishSt r.state))) (r.ensures.map (fun h => .ensureFired t h))) (.drainTrappers t)) t (fun q => { q with ensures := [], trappers := [] })) :=
          TermInv_keepSC h3 (fun r => by simp)
        split
        · exact h4
        · split
          · exact TermInv_keepSC h4 (fun r => by cases h : r.settled <;> simp)
          · split
            · exact TermInv_keepSC h4 (fun r => by cases h : r.settled <;> simp)
            · split
              · exact TermInv_keepSC h4 (fun r => by cases h : r.settled <;> simp)
              · exact h4
      · exact hm
    | drainTrappers t =>
      simp only [exec]
      split
      · exact hm
      rename_i r heq
      split
      · exact hm
      rename_i tr rest heq2
      exact ih _ _ (ih _ _ (TermInv_pushLog (TermInv_keepSC hm (fun r => by simp))))

end Effection

namespace Effection

theorem isTerminal_finishSt {s : TState} (h : isFinishing s = true) :
    isTerminal (finishSt s) = true := by
  cases s <;> simp_all [isFinishing, finishSt, isTerminal]

theorem log_eq_append_newEvents {w w1 : World} (h : logExt w w1) :
    w1.log = w.log ++ newEvents w w1 := by
  obtain ⟨l, hl⟩ := h
  rw [newEvents_of_append hl]
  exact hl

theorem ensuresOf_updTask_keep (w : World) (v u : Nat) (f : TaskRec → TaskRec)
    (hf : ∀ r, (f r).ensures = r.ensures) :
    ensuresOf (updTask w v f) u = ensuresOf w u := by
  unfold ensuresOf
  rw [lookupT_updTask]
  by_cases h : u = v
  · subst h
    simp only [if_pos rfl]
    cases lookupT w u with
    | none => rfl
    | some r => simp [hf r]
  · simp [h]

theorem trappersOf_updTask_keep (w : World) (v u : Nat) (f : TaskRec → TaskRec)
    (hf : ∀ r, (f r).trappers = r.trappers) :
    trappersOf (updTask w v f) u = trappersOf w u := by
  unfold trappersOf
  rw [lookupT_updTask]
  by_cases h : u = v
  · subst h
    simp only [if_pos rfl]
    cases lookupT w u with
    | none => rfl
    | some r => simp [hf r]
  · simp [h]

theorem stateOf_updTask_keep (w : World) (v u : Nat) (f : TaskRec → TaskRec)
    (hf : ∀ r, (f r).state = r.state) :
    stateOf (updTask w v f) u = stateOf w u := by
  unfold stateOf
  rw [lookupT_updTask]
  by_cases h : u = v
  · subst h
    simp only [if_pos rfl]
    cases lookupT w u with
    | none => rfl
    | some r => simp [hf r]
  · simp [h]

theorem ensuresOf_setSettled (w : World) (v u : Nat) (o : Settle) :
    ensuresOf (setSettled w v o) u = ensuresOf w u := by
  unfold setSettled
  exact ensuresOf_updTask_keep _ _ _ _ (fun r => by cases h : r.settled <;> simp)

theorem trappersOf_setSettled (w : World) (v u : Nat) (o : Settle) :
    trappersOf (setSettled w v o) u = trappersOf w u := by
  unfold setSettled
  exact trappersOf_updTask_keep _ _ _ _ (fun r => by cases h : r.settled <;> simp)

theorem stateOf_setSettled (w : World) (v u : Nat) (o : Settle) :
    stateOf (setSettled w v o) u = stateOf w u := by
  unfold setSettled
  exact stateOf_updTask_keep _ _ _ _ (fun r => by cases h : r.settled <;> simp)

theorem setSettled_log (w : World) (v : Nat) (o : Settle) :
    (setSettled w v o).log = w.log := rfl

end Effection

namespace Effection

theorem resume_step (n : Nat) (w : World) (t : Nat) (r : TaskRec)
    (heq : lookupT w t = some r)
    (hg : isFinishing r.state = true ∧ r.children = []) :
    exec (n + 1) w (.resume t) = (updTask (exec n (pushLogs (pushLog (updState w t (finishSt r.state)) (Event.trans t r.state (finishSt r.state))) (r.ensures.map (fun h => Event.ensureFired t h))) (Call.drainTrappers t)) t (fun q => { q with ensures := [], trappers := [] }))
    ∨ ∃ o, exec (n + 1) w (.resume t) = setSettled (updTask (exec n (pushLogs (pushLog (updState w t (finishSt r.state)) (Event.trans t r.state (finishSt r.state))) (r.ensures.map (fun h => Event.ensureFired t h))) (Call.drainTrappers t)) t (fun q => { q with ensures := [], trappers := [] })) t o := by
  simp only [exec, heq]
  rw [if_pos hg]
  split
  · exact Or.inl rfl
  · split
    · exact Or.inr ⟨_, rfl⟩
    · split
      · exact Or.inr ⟨_, rfl⟩
      · split
        · exact Or.inr ⟨_, rfl⟩
        · exact Or.inl rfl

end Effection

namespace Effection

/-- Claim C3 (see RESULTS): ensure handlers fire before trappers, once,
after terminal entry. -/
theorem claim3_ensure_then_trappers :
    ∀ (n : Nat) (w : World) (t : Nat) (r : TaskRec),
      lookupT w t = some r →
      isFinishing r.state = true →
      r.children = [] →
      ∃ tail : List Event,
        (exec (n + 2) w (.resume t)).log
          = w.log ++ [Event.trans t r.state (finishSt r.state)]
            ++ r.ensures.map (fun h => Event.ensureFired t h) ++ tail
        ∧ (∀ e ∈ tail, isEnsureOf t e = false)
        ∧ (∀ e ∈ tail, isTransOf t e = false)
        ∧ (∀ tr rest, r.trappers = tr :: rest →
            tail.head? = some (Event.trapperFired t tr))
        ∧ ensuresOf (exec (n + 2) w (.resume t)) t = []
        ∧ trappersOf (exec (n + 2) w (.resume t)) t = []
        ∧ isTerminalO (stateOf (exec (n + 2) w (.resume t)) t) = true
        ∧ (∀ (m : Nat) (c : Call), c ≠ Call.drainTrappers t →
            ∀ e ∈ newEvents (exec (n + 2) w (.resume t))
                (exec m (exec (n + 2) w (.resume t)) c),
              eventsAbout t e = false) := by
  intro n w t r heq hfin hch
  have hlook2 : lookupT (pushLogs (pushLog (updState w t (finishSt r.state)) (Event.trans t r.state (finishSt r.state))) (r.ensures.map (fun h => Event.ensureFired t h))) t = some ({ r with state := finishSt r.state }) := by
    rw [lookupT_pushLogs, lookupT_pushLog]
    unfold updState
    rw [lookupT_updTask_self, heq]
    rfl
  have hterm2 : isTerminalO (stateOf (pushLogs (pushLog (updState w t (finishSt r.state)) (Event.trans t r.state (finishSt r.state))) (r.ensures.map (fun h => Event.ensureFired t h))) t) = true := by
    simp only [stateOf, hlook2, Option.map_some']
    exact isTerminal_finishSt hfin
  have hle23 : logExt (pushLogs (pushLog (updState w t (finishSt r.state)) (Event.trans t r.state (finishSt r.state))) (r.ensures.map (fun h => Event.ensureFired t h))) (exec (n + 1) (pushLogs (pushLog (updState w t (finishSt r.state)) (Event.trans t r.state (finishSt r.state))) (r.ensures.map (fun h => Event.ensureFired t h))) (Call.drainTrappers t)) := logExt_exec (n + 1) (pushLogs (pushLog (updState w t (finishSt r.state)) (Event.trans t r.state (finishSt r.state))) (r.ensures.map (fun h => Event.ensureFired t h))) (Call.drainTrappers t)
  have hcore32 : taskCore (exec (n + 1) (pushLogs (pushLog (updState w t (finishSt r.state)) (Event.trans t r.state (finishSt r.state))) (r.ensures.map (fun h => Event.ensureFired t h))) (Call.drainTrappers t)) t = taskCore (pushLogs (pushLog (updState w t (finishSt r.state)) (Event.trans t r.state (finishSt r.state))) (r.ensures.map (fun h => Event.ensureFired t h))) t :=
    exec_terminal_stable (n + 1) (pushLogs (pushLog (updState w t (finishSt r.state)) (Event.trans t r.state (finishSt r.state))) (r.ensures.map (fun h => Event.ensureFired t h))) (Call.drainTrappers t) t hterm2
  have hcore2v : taskCore (pushLogs (pushLog (updState w t (finishSt r.state)) (Event.trans t r.state (finishSt r.state))) (r.ensures.map (fun h => Event.ensureFired t h))) t
      = some (finishSt r.state, r.result, r.error, r.settled) := by
    simp [taskCore, hlook2]
  have hmap3 : (lookupT (exec (n + 1) (pushLogs (pushLog (updState w t (finishSt r.state)) (Event.trans t r.state (finishSt r.state))) (r.ensures.map (fun h => Event.ensureFired t h))) (Call.drainTrappers t)) t).map
      (fun q => (q.state, q.result, q.error, q.settled))
      = some (finishSt r.state, r.result, r.error, r.settled) :=
    hcore32.trans hcore2v
  obtain ⟨q3, hl3, hq3f⟩ := Option.map_eq_some'.mp hmap3
  have hq3s : q3.state = finishSt r.state := by
    have := congrArg (fun x => x.1) hq3f
    simpa using this
  have hlook4 : lookupT (updTask (exec (n + 1) (pushLogs (pushLog (updState w t (finishSt r.state)) (Event.trans t r.state (finishSt r.state))) (r.ensures.map (fun h => Event.ensureFired t h))) (Call.drainTrappers t)) t (fun q => { q with ensures := [], trappers := [] })) t = some ({ q3 with ensures := [], trappers := [] }) := by
    rw [lookupT_updTask_self, hl3]
    rfl
  have hens4 : ensuresOf (updTask (exec (n + 1) (pushLogs (pushLog (updState w t (finishSt r.state)) (Event.trans t r.state (finishSt r.state))) (r.ensures.map (fun h => Event.ensureFired t h))) (Call.drainTrappers t)) t (fun q => { q with ensures := [], trappers := [] })) t = [] := by
    simp [ensuresOf, hlook4]
  have htrap4 : trappersOf (updTask (exec (n + 1) (pushLogs (pushLog (updState w t (finishSt r.state)) (Event.trans t r.state (finishSt r.state))) (r.ensures.map (fun h => Event.ensureFired t h))) (Call.drainTrappers t)) t (fun q => { q with ensures := [], trappers := [] })) t = [] := by
    simp [trappersOf, hlook4]
  have hstate4 : stateOf (updTask (exec (n + 1) (pushLogs (pushLog (updState w t (finishSt r.state)) (Event.trans t r.state (finishSt r.state))) (r.ensures.map (fun h => Event.ensureFired t h))) (Call.drainTrappers t)) t (fun q => { q with ensures := [], trappers := [] })) t = some (finishSt r.state) := by
    simp [stateOf, hlook4, hq3s]
  have hlog4 : ((updTask (exec (n + 1) (pushLogs (pushLog (updState w t (finishSt r.state)) (Event.trans t r.state (finishSt r.state))) (r.ensures.map (fun h => Event.ensureFired t h))) (Call.drainTrappers t)) t (fun q => { q with ensures := [], trappers := [] }))).log
      = w.log ++ [Event.trans t r.state (finishSt r.state)]
        ++ r.ensures.map (fun h => Event.ensureFired t h) ++ newEvents (pushLogs (pushLog (updState w t (finishSt r.state)) (Event.trans t r.state (finishSt r.state))) (r.ensures.map (fun h => Event.ensureFired t h))) (exec (n + 1) (pushLogs (pushLog (updState w t (finishSt r.state)) (Event.trans t r.state (finishSt r.state))) (r.ensures.map (fun h => Event.ensureFired t h))) (Call.drainTrappers t)) := by
    rw [updTask_log]
    rw [log_eq_append_newEvents hle23]
    rfl
  have htails := exec_no_ensure_trans (n + 1) (pushLogs (pushLog (updState w t (finishSt r.state)) (Event.trans t r.state (finishSt r.state))) (r.ensures.map (fun h => Event.ensureFired t h))) (Call.drainTrappers t) t hterm2
  have hhead : ∀ tr rest, r.trappers = tr :: rest →
      (newEvents (pushLogs (pushLog (updState w t (finishSt r.state)) (Event.trans t r.state (finishSt r.state))) (r.ensures.map (fun h => Event.ensureFired t h))) (exec (n + 1) (pushLogs (pushLog (updState w t (finishSt r.state)) (Event.trans t r.state (finishSt r.state))) (r.ensures.map (fun h => Event.ensureFired t h))) (Call.drainTrappers t))).head? = some (Event.trapperFired t tr) := by
    intro tr rest hrt
    have hW3 : (exec (n + 1) (pushLogs (pushLog (updState w t (finishSt r.state)) (Event.trans t r.state (finishSt r.state))) (r.ensures.map (fun h => Event.ensureFired t h))) (Call.drainTrappers t))
        = exec n (exec n (pushLog (updTask (pushLogs (pushLog (updState w t (finishSt r.state)) (Event.trans t r.state (finishSt r.state))) (r.ensures.map (fun h => Event.ensureFired t h))) t fun q => { q with trappers := rest })
            (Event.trapperFired t tr)) (callOfTrapper t tr)) (Call.drainTrappers t) := by
      simp only [exec, hlook2, hrt]
    obtain ⟨l2, hl2⟩ := logExt_trans
      (logExt_exec n (pushLog (updTask (pushLogs (pushLog (updState w t (finishSt r.state)) (Event.trans t r.state (finishSt r.state))) (r.ensures.map (fun h => Event.ensureFired t h))) t fun q => { q with trappers := rest })
        (Event.trapperFired t tr)) (callOfTrapper t tr))
      (logExt_exec n (exec n (pushLog (updTask (pushLogs (pushLog (updState w t (finishSt r.state)) (Event.trans t r.state (finishSt r.state))) (r.ensures.map (fun h => Event.ensureFired t h))) t fun q => { q with trappers := rest })
        (Event.trapperFired t tr)) (callOfTrapper t tr)) (Call.drainTrappers t))
    have hlog3b : ((exec (n + 1) (pushLogs (pushLog (updState w t (finishSt r.state)) (Event.trans t r.state (finishSt r.state))) (r.ensures.map (fun h => Event.ensureFired t h))) (Call.drainTrappers t))).log
        = ((pushLogs (pushLog (updState w t (finishSt r.state)) (Event.trans t r.state (finishSt r.state))) (r.ensures.map (fun h => Event.ensureFired t h)))).log ++ ([Event.trapperFired t tr] ++ l2) := by
      rw [hW3, hl2]
      simp [pushLog_log, updTask_log, List.append_assoc]
    rw [newEvents_of_append hlog3b]
    simp
  have hlast : ∀ w5 : World, stateOf w5 t = some (finishSt r.state) →
      ∀ (m : Nat) (c : Call), c ≠ Call.drainTrappers t →
      ∀ e ∈ newEvents w5 (exec m w5 c), eventsAbout t e = false := by
    intro w5 hst5 m c hc e he
    have hterm5 : isTerminalO (stateOf w5 t) = true := by
      rw [hst5]
      exact isTerminal_finishSt hfin
    have h1 := exec_no_ensure_trans m w5 c t hterm5 e he
    have h2 := exec_no_trapper_of_terminal m w5 c t hterm5 hc e he
    simp [eventsAbout, h1.1, h1.2, h2]
  rcases resume_step (n + 1) w t r heq ⟨hfin, hch⟩ with hEQ | ⟨o, hEQ⟩
  · rw [show exec (n + 2) w (.resume t) = (updTask (exec (n + 1) (pushLogs (pushLog (updState w t (finishSt r.state)) (Event.trans t r.state (finishSt r.state))) (r.ensures.map (fun h => Event.ensureFired t h))) (Call.drainTrappers t)) t (fun q => { q with ensures := [], trappers := [] })) from hEQ]
    refine ⟨newEvents (pushLogs (pushLog (updState w t (finishSt r.state)) (Event.trans t r.state (finishSt r.state))) (r.ensures.map (fun h => Event.ensureFired t h))) (exec (n + 1) (pushLogs (pushLog (updState w t (finishSt r.state)) (Event.trans t r.state (finishSt r.state))) (r.ensures.map (fun h => Event.ensureFired t h))) (Call.drainTrappers t)), hlog4, ?_, ?_, hhead, hens4, htrap4, ?_, ?_⟩
    · intro e he
      exact (htails e he).1
    · intro e he
      exact (htails e he).2
    · rw [hstate4]
      exact isTerminal_finishSt hfin
    · exact hlast _ hstate4
  · rw [show exec (n + 2) w (.resume t) = setSettled (updTask (exec (n + 1) (pushLogs (pushLog (updState w t (finishSt r.state)) (Event.trans t r.state (finishSt r.state))) (r.ensures.map (fun h => Event.ensureFired t h))) (Call.drainTrappers t)) t (fun q => { q with ensures := [], trappers := [] })) t o from hEQ]
    refine ⟨newEvents (pushLogs (pushLog (updState w t (finishSt r.state)) (Event.trans t r.state (finishSt r.state))) (r.ensures.map (fun h => Event.ensureFired t h))) (exec (n + 1) (pushLogs (pushLog (updState w t (finishSt r.state)) (Event.trans t r.state (finishSt r.state))) (r.ensures.map (fun h => Event.ensureFired t h))) (Call.drainTrappers t)), ?_, ?_, ?_, hhead, ?_, ?_, ?_, ?_⟩
    · rw [setSettled_log]
      exact hlog4
    · intro e he
      exact (htails e he).1
    · intro e he
      exact (htails e he).2
    · rw [ensuresOf_setSettled]
      exact hens4
    · rw [trappersOf_setSettled]
      exact htrap4
    · rw [stateOf_setSettled, hstate4]
      exact isTerminal_finishSt hfin
    · refine hlast _ ?_
      rw [stateOf_setSettled]
      exact hstate4

end Effection

namespace Effection

/-- Claim C1: `resume` enters a terminal state, and settles the deferred,
only when the state is a finishing state and the children set is empty;
globally, no operation makes a task terminal while it has linked children
(a terminal task always has an empty children set). -/
theorem claim1_terminal_entry_guard :
    (∀ (n : Nat) (w : World) (t : Nat) (r : TaskRec), lookupT w t = some r →
      ((isTerminalO (stateOf (exec n w (.resume t)) t) = true →
          isTerminal r.state = false →
          isFinishing r.state = true ∧ r.children = [])
        ∧ (settledOf (exec n w (.resume t)) t ≠ settledOf w t →
          isFinishing r.state = true ∧ r.children = [])))
    ∧ (∀ (n : Nat) (w : World) (c : Call), TermInv w → TermInv (exec n w c)) := by
  constructor
  · intro n w t r heq
    cases n with
    | zero =>
      constructor
      · intro hterm hnot
        exfalso
        simp only [exec] at hterm
        simp [stateOf, heq, isTerminalO, hnot] at hterm
      · intro hset
        exact absurd rfl hset
    | succ n =>
      simp only [exec, heq]
      split
      · rename_i hguard
        exact ⟨fun _ _ => hguard, fun _ => hguard⟩
      · rename_i hguard
        constructor
        · intro hterm hnot
          exfalso
          simp [stateOf, heq, isTerminalO, hnot] at hterm
        · intro hset
          exact absurd rfl hset
  · exact exec_TermInv

/-- Witness for C1 at a concrete world: a halting childless task resumes
into the halted terminal state, and the guard indeed held. -/
theorem claim1_witness :
    (isFinishing ({ state := .halting, ensures := [4, 5], trappers := [.ext 0] } : TaskRec).state = true
      ∧ ({ state := .halting, ensures := [4, 5], trappers := [.ext 0] } : TaskRec).children = [])
    ∧ TermInv (exec 3 finW (.start 1)) :=
  ⟨(claim1_terminal_entry_guard.1 5 finW 1
      { state := .halting, ensures := [4, 5], trappers := [.ext 0] } (by decide)).1
      (by decide) (by decide),
    claim1_terminal_entry_guard.2 3 finW (.start 1) (by
      intro t r hr ht
      simp only [finW, lookupT, lookupA] at hr
      by_cases h : (1 : Nat) = t
      · rw [if_pos h] at hr
        injection hr with hh
        subst hh
        simp [isTerminal] at ht
      · rw [if_neg h] at hr
        exact Option.noConfusion hr)⟩

end Effection

namespace Effection

/-- Witness for C3: the halting task with two ensure handlers and one
trapper, resumed concretely. -/
theorem claim3_witness :
    ∃ tail : List Event,
      (exec 5 finW (.resume 1)).log
        = finW.log ++ [Event.trans 1 TState.halting (finishSt TState.halting)]
          ++ (([4, 5] : List Nat).map (fun h => Event.ensureFired 1 h)) ++ tail
      ∧ (∀ e ∈ tail, isEnsureOf 1 e = false)
      ∧ (∀ e ∈ tail, isTransOf 1 e = false)
      ∧ (∀ tr rest, ([Trapper.ext 0] : List Trapper) = tr :: rest →
          tail.head? = some (Event.trapperFired 1 tr))
      ∧ ensuresOf (exec 5 finW (.resume 1)) 1 = []
      ∧ trappersOf (exec 5 finW (.resume 1)) 1 = []
      ∧ isTerminalO (stateOf (exec 5 finW (.resume 1)) 1) = true
      ∧ (∀ (m : Nat) (c : Call), c ≠ Call.drainTrappers 1 →
          ∀ e ∈ newEvents (exec 5 finW (.resume 1)) (exec m (exec 5 finW (.resume 1)) c),
            eventsAbout 1 e = false) :=
  claim3_ensure_then_trappers 3 finW 1
    { state := .halting, ensures := [4, 5], trappers := [.ext 0] }
    (by decide) (by decide) (by decide)

end Effection

namespace Effection

theorem settledOf_setSettled_of_none {w : World} {t : Nat} {q : TaskRec}
    (hl : lookupT w t = some q) (hs : q.settled = none) (o : Settle) :
    settledOf (setSettled w t o) t = some o := by
  unfold settledOf setSettled
  rw [lookupT_updTask_self, hl]
  simp [hs]

/-- Claim C6: on terminal entry the deferred settles per the terminal
state (completed resolves the result, halted rejects a HaltError, errored
rejects the error); awaiters see that outcome, and catchHalt turns the
HaltError into a normal empty outcome while passing everything else
through. -/
theorem claim6_halt_outcomes :
    (∀ (n : Nat) (w : World) (t : Nat) (r : TaskRec),
      lookupT w t = some r → isFinishing r.state = true → r.children = [] →
      r.settled = none →
      settledOf (exec (n + 1) w (.resume t)) t
        = some (settleFor (finishSt r.state) r.result r.error))
    ∧ awaitTask .rejectedHalt = .error .haltError
    ∧ (∀ v, awaitTask (.resolvedWith v) = .ok v)
    ∧ (∀ e, awaitTask (.rejectedWith e) = .error (.opError e))
    ∧ catchHalt .rejectedHalt = .ok none
    ∧ (∀ v, catchHalt (.resolvedWith v) = .ok (some v))
    ∧ (∀ e, catchHalt (.rejectedWith e) = .error (.opError e)) := by
  refine ⟨?_, rfl, fun v => rfl, fun e => rfl, rfl, fun v => rfl, fun e => rfl⟩
  intro n w t r heq hfin hch hset
  have hlook2 : lookupT (pushLogs (pushLog (updState w t (finishSt r.state)) (Event.trans t r.state (finishSt r.state))) (r.ensures.map (fun h => Event.ensureFired t h))) t = some ({ r with state := finishSt r.state }) := by
    rw [lookupT_pushLogs, lookupT_pushLog]
    unfold updState
    rw [lookupT_updTask_self, heq]
    rfl
  have hterm2 : isTerminalO (stateOf (pushLogs (pushLog (updState w t (finishSt r.state)) (Event.trans t r.state (finishSt r.state))) (r.ensures.map (fun h => Event.ensureFired t h))) t) = true := by
    simp only [stateOf, hlook2, Option.map_some']
    exact isTerminal_finishSt hfin
  have hcore32 : taskCore (exec n (pushLogs (pushLog (updState w t (finishSt r.state)) (Event.trans t r.state (finishSt r.state))) (r.ensures.map (fun h => Event.ensureFired t h))) (Call.drainTrappers t)) t = taskCore (pushLogs (pushLog (updState w t (finishSt r.state)) (Event.trans t r.state (finishSt r.state))) (r.ensures.map (fun h => Event.ensureFired t h))) t :=
    exec_terminal_stable n (pushLogs (pushLog (updState w t (finishSt r.state)) (Event.trans t r.state (finishSt r.state))) (r.ensures.map (fun h => Event.ensureFired t h))) (Call.drainTrappers t) t hterm2
  have hcore2v : taskCore (pushLogs (pushLog (updState w t (finishSt r.state)) (Event.trans t r.state (finishSt r.state))) (r.ensures.map (fun h => Event.ensureFired t h))) t
      = some (finishSt r.state, r.result, r.error, r.settled) := by
    simp [taskCore, hlook2]
  have hmap3 : (lookupT (exec n (pushLogs (pushLog (updState w t (finishSt r.state)) (Event.trans t r.state (finishSt r.state))) (r.ensures.map (fun h => Event.ensureFired t h))) (Call.drainTrappers t)) t).map
      (fun q => (q.state, q.result, q.error, q.settled))
      = some (finishSt r.state, r.result, r.error, r.settled) :=
    hcore32.trans hcore2v
  obtain ⟨q3, hl3, hq3f⟩ := Option.map_eq_some'.mp hmap3
  have hq3s : q3.state = finishSt r.state := by
    have := congrArg (fun x => x.1) hq3f
    simpa using this
  have hq3r : q3.result = r.result := by
    have := congrArg (fun x => x.2.1) hq3f
    simpa using this
  have hq3e : q3.error = r.error := by
    have := congrArg (fun x => x.2.2.1) hq3f
    simpa using this
  have hq3set : q3.settled = none := by
    have := congrArg (fun x => x.2.2.2) hq3f
    simpa [hset] using this
  have hlook4 : lookupT (updTask (exec n (pushLogs (pushLog (updState w t (finishSt r.state)) (Event.trans t r.state (finishSt r.state))) (r.ensures.map (fun h => Event.ensureFired t h))) (Call.drainTrappers t)) t (fun q => { q with ensures := [], trappers := [] })) t = some ({ q3 with ensures := [], trappers := [] }) := by
    rw [lookupT_updTask_self, hl3]
    rfl
  simp only [exec, heq]
  rw [if_pos (⟨hfin, hch⟩ : isFinishing r.state = true ∧ r.children = [])]
  simp only [hlook4]
  cases hrs : r.state with
  | pending => rw [hrs] at hfin; exact absurd hfin (by simp [isFinishing])
  | running => rw [hrs] at hfin; exact absurd hfin (by simp [isFinishing])
  | completed => rw [hrs] at hfin; exact absurd hfin (by simp [isFinishing])
  | errored => rw [hrs] at hfin; exact absurd hfin (by simp [isFinishing])
  | halted => rw [hrs] at hfin; exact absurd hfin (by simp [isFinishing])
  | completing =>
    rw [hrs] at hq3s hlook4
    simp only [finishSt] at hq3s hlook4
    simp only [hq3s, finishSt]
    rw [if_pos trivial]
    rw [settledOf_setSettled_of_none hlook4 (by simp [hq3set]) _]
    simp [settleFor, hq3r]
  | erroring =>
    rw [hrs] at hq3s hlook4
    simp only [finishSt] at hq3s hlook4
    simp only [hq3s, finishSt]
    rw [if_neg (by simp), if_neg (by simp), if_pos trivial]
    rw [settledOf_setSettled_of_none hlook4 (by simp [hq3set]) _]
    simp [settleFor, hq3e]
  | halting =>
    rw [hrs] at hq3s hlook4
    simp only [finishSt] at hq3s hlook4
    simp only [hq3s, finishSt]
    rw [if_neg (by simp), if_pos trivial]
    rw [settledOf_setSettled_of_none hlook4 (by simp [hq3set]) _]
    simp [settleFor]

end Effection

namespace Effection

/-- Witness for C6: the halting childless task settles its deferred with a
HaltError rejection, which catchHalt converts to an empty outcome. -/
theorem claim6_witness :
    settledOf (exec 5 finW (.resume 1)) 1
      = some (settleFor (finishSt TState.halting) none none)
    ∧ catchHalt .rejectedHalt = .ok none :=
  ⟨claim6_halt_outcomes.1 4 finW 1
      { state := .halting, ensures := [4, 5], trappers := [.ext 0] }
      (by decide) (by decide) (by decide) (by decide),
    claim6_halt_outcomes.2.2.2.2.1⟩

end Effection

namespace Effection

theorem find?_eq_head?_filter (l : List Nat) (p : Nat → Bool) :
    l.find? p = (l.filter p).head? := by
  induction l with
  | nil => rfl
  | cons a rest ih =>
    cases h : p a
    · simp only [List.find?, List.filter, h, ih]
    · simp only [List.find?, List.filter, h, List.head?]

/-- Claim C2: the halt cascade picks exactly the first child in reverse
insertion order satisfying force-or-not-blockParent (the spec-side
`specTarget`), installs a halt continuation trapper on it, halts it and
returns; `resolve` cascades with force false, `reject` and `halted` with
force true. -/
theorem claim2_halt_cascade :
    (∀ (w : World) (t : Nat) (force : Bool),
      (childrenOf w t).reverse.find? (fun c => force || !(blockParentOf w c))
        = specTarget w t force)
    ∧ (∀ (n : Nat) (w : World) (t : Nat) (force : Bool) (r : TaskRec),
        lookupT w t = some r →
        (specTarget w t force = none → exec (n + 1) w (.haltChildren t force) = w)
        ∧ (∀ c, specTarget w t force = some c →
            exec (n + 1) w (.haltChildren t force)
              = exec n (addTrapperW w c (.haltCont t force)) (.halt c)))
    ∧ (∀ (n : Nat) (w : World) (t : Nat) (v : Int) (r : TaskRec) (st : TState),
        lookupT w t = some r → smResolve r.state = some st →
        exec (n + 1) w (.resolve t v)
          = exec n (exec n (pushLog (updTask w t fun q => { q with state := st, result := some v })
              (.trans t r.state st)) (.haltChildren t false)) (.resume t))
    ∧ (∀ (n : Nat) (w : World) (t : Nat) (e : Int) (r : TaskRec) (st : TState),
        lookupT w t = some r → smReject r.state = some st →
        exec (n + 1) w (.reject t e)
          = exec n (exec n (pushLog (updTask w t fun q => { q with state := st, result := none, error := some e })
              (.trans t r.state st)) (.haltChildren t true)) (.resume t))
    ∧ (∀ (n : Nat) (w : World) (t : Nat) (r : TaskRec) (st : TState),
        lookupT w t = some r → smHalt r.state = some st →
        exec (n + 1) w (.halted t)
          = exec n (exec n (pushLog (updState w t st)
              (.trans t r.state st)) (.haltChildren t true)) (.resume t)) := by
  refine ⟨?_, ?_, ?_, ?_, ?_⟩
  · intro w t force
    rw [specTarget, find?_eq_head?_filter]
  · intro n w t force r heq
    have hfind : r.children.reverse.find? (fun c => force || !(blockParentOf w c))
        = specTarget w t force := by
      rw [specTarget, find?_eq_head?_filter]
      unfold childrenOf
      rw [heq]
    constructor
    · intro hnone
      simp only [exec, heq, hfind, hnone]
    · intro c hsome
      simp only [exec, heq, hfind, hsome]
  · intro n w t v r st heq heq2
    simp only [exec, heq, heq2]
  · intro n w t e r st heq heq2
    simp only [exec, heq, heq2]
  · intro n w t r st heq heq2
    simp only [exec, heq, heq2]

/-- Witness for C2 at a concrete parent with two children (the younger one
blockParent): a forced cascade targets the youngest child, an unforced one
skips the blockParent child. -/
theorem claim2_witness :
    exec 4 cascW (.haltChildren 1 true)
      = exec 3 (addTrapperW cascW 3 (.haltCont 1 true)) (.halt 3)
    ∧ exec 4 cascW (.haltChildren 1 false)
      = exec 3 (addTrapperW cascW 2 (.haltCont 1 false)) (.halt 2)
    ∧ exec 4 rootRunning (.resolve 1 9)
      = exec 3 (exec 3 (pushLog (updTask rootRunning 1 fun q => { q with state := .completing, result := some 9 })
          (.trans 1 .running .completing)) (.haltChildren 1 false)) (.resume 1) :=
  ⟨((claim2_halt_cascade.2.1 3 cascW 1 true
      { state := .running, children := [2, 3] } (by decide)).2 3 (by decide)),
    ((claim2_halt_cascade.2.1 3 cascW 1 false
      { state := .running, children := [2, 3] } (by decide)).2 2 (by decide)),
    claim2_halt_cascade.2.2.1 3 rootRunning 1 9
      { state := .running } .completing (by decide) (by decide)⟩

end Effection

namespace Effection

theorem childrenOf_updTask_erase_self (w : World) (p c : Nat) :
    childrenOf (updTask w p (fun r => { r with children := r.children.erase c })) p
      = (childrenOf w p).erase c := by
  unfold childrenOf
  rw [lookupT_updTask_self]
  cases hl : lookupT w p
  · simp
  · simp

theorem not_mem_childrenOf_unlinkW (w1 : World) (p c : Nat)
    (hnd : (childrenOf w1 p).Nodup) : c ∉ childrenOf (unlinkW w1 p c) p := by
  unfold unlinkW
  split
  · rename_i h0
    simp [childrenOf, h0]
  · rename_i r1 h1
    split
    · rename_i hin
      rw [childrenOf_pushLog, childrenOf_updTask_erase_self, childrenOf_removeTrapperW]
      intro hmem
      rcases (List.Nodup.mem_erase_iff hnd).mp hmem with ⟨hne, _⟩
      exact hne rfl
    · rename_i hnin
      intro hmem
      apply hnin
      simpa [childrenOf, h1] using hmem

/-- Claim C4: the parent's trap on a terminal child rejects with the
child's error exactly when the child is errored and neither ignoreError
nor ignoreChildErrors is set; the child is always unlinked (it is not in
the parent's children set afterwards); and the parent is resumed. -/
theorem claim4_trap :
    ∀ (n : Nat) (w : World) (p c : Nat) (rp rc : TaskRec),
      lookupT w p = some rp → lookupT w c = some rc →
      (c ∈ rp.children →
        exec (n + 1) w (.trap p c)
          = exec n (unlinkW (if rc.state = .errored ∧ rc.options.ignoreError = false
              ∧ rp.options.ignoreChildErrors = false then
                exec n w (.reject p (rc.error.getD 0)) else w) p c) (.resume p))
      ∧ (c ∉ rp.children →
        exec (n + 1) w (.trap p c) = exec n w (.resume p))
      ∧ (rp.children.Nodup → c ∉ childrenOf (exec (n + 1) w (.trap p c)) p) := by
  intro n w p c rp rc heqp heqc
  have hin : ∀ h : c ∈ rp.children,
      exec (n + 1) w (.trap p c)
        = exec n (unlinkW (if rc.state = .errored ∧ rc.options.ignoreError = false
            ∧ rp.options.ignoreChildErrors = false then
              exec n w (.reject p (rc.error.getD 0)) else w) p c) (.resume p) := by
    intro h
    simp only [exec, heqp, heqc]
    rw [if_pos h]
  have hout : ∀ _ : c ∉ rp.children,
      exec (n + 1) w (.trap p c) = exec n w (.resume p) := by
    intro h
    simp only [exec, heqp, heqc]
    rw [if_neg h]
  refine ⟨hin, hout, ?_⟩
  intro hnd
  by_cases hmem : c ∈ rp.children
  · rw [hin hmem]
    intro habs
    have hsub := exec_children_sublist n (unlinkW (if rc.state = .errored
      ∧ rc.options.ignoreError = false ∧ rp.options.ignoreChildErrors = false then
        exec n w (.reject p (rc.error.getD 0)) else w) p c) (Call.resume p) p
    have habs2 := hsub.subset habs
    have hnd1 : (childrenOf (if rc.state = .errored ∧ rc.options.ignoreError = false
        ∧ rp.options.ignoreChildErrors = false then
          exec n w (.reject p (rc.error.getD 0)) else w) p).Nodup := by
      have hsub1 : List.Sublist (childrenOf (if rc.state = .errored ∧ rc.options.ignoreError = false
          ∧ rp.options.ignoreChildErrors = false then
            exec n w (.reject p (rc.error.getD 0)) else w) p) (childrenOf w p) := by
        split
        · exact exec_children_sublist n w (Call.reject p (rc.error.getD 0)) p
        · exact List.Sublist.refl _
      have hch : childrenOf w p = rp.children := by
        simp [childrenOf, heqp]
      exact hsub1.nodup (hch ▸ hnd)
    exact not_mem_childrenOf_unlinkW _ p c hnd1 habs2
  · rw [hout hmem]
    intro habs
    have hsub := exec_children_sublist n w (Call.resume p) p
    have habs2 := hsub.subset habs
    have hch : childrenOf w p = rp.children := by
      simp [childrenOf, heqp]
    rw [hch] at habs2
    exact hmem habs2

/-- Witness for C4: an errored child linked under a running parent; the
trap equation holds and the child is gone from the children set. -/
theorem claim4_witness :
    exec 6 trapW (.trap 1 2)
      = exec 5 (unlinkW (if TState.errored = TState.errored ∧ false = false ∧ false = false then
          exec 5 trapW (.reject 1 ((some (5 : Int)).getD 0)) else trapW) 1 2) (.resume 1)
    ∧ (2 : Nat) ∉ childrenOf (exec 6 trapW (.trap 1 2)) 1 :=
  ⟨(claim4_trap 5 trapW 1 2 { state := .running, children := [2] }
      { state := .errored, error := some 5, options := { resourceScope := some 1 } }
      (by decide) (by decide)).1 (by decide),
    (claim4_trap 5 trapW 1 2 { state := .running, children := [2] }
      { state := .errored, error := some 5, options := { resourceScope := some 1 } }
      (by decide) (by decide)).2.2 (by decide)⟩

end Effection

namespace Effection

theorem lookupA_append (l1 l2 : List (Nat × TaskRec)) (t : Nat) :
    lookupA (l1 ++ l2) t
      = match lookupA l1 t with
        | some r => some r
        | none => lookupA l2 t := by
  induction l1 with
  | nil => simp [lookupA]
  | cons p rest ih =>
    obtain ⟨k, r⟩ := p
    by_cases h : k = t
    · simp [lookupA, h]
    · simp [lookupA, h, ih]

theorem MutexInv_linkW {w : World} (p c : Nat) (hm : MutexInv w) :
    MutexInv (linkW w p c) := by
  unfold linkW
  split
  · exact hm
  · split
    · exact hm
    · exact MutexInv_pushLog (MutexInv_keepCore (MutexInv_keepCore hm (fun r => by simp))
        (fun r => by simp))

/-- Claim C5 counterexample: resolving the root (result 9) while a
blockParent child is live, then halting it, leaves the root halted with
its result still set, so the result field being set does not imply the
terminal state is completed. -/
theorem claim5_counterexample :
    stateOf c5run 1 = some TState.halted
    ∧ resultOf c5run 1 = some 9
    ∧ isTerminal TState.halted = true
    ∧ TState.halted ≠ TState.completed := by
  refine ⟨by decide, by decide, by decide, by decide⟩

/-- Claim C5 amended: result and error are never both set (reject clears a
previous result); a completed task has its result set and no error, an
errored task its error set and no result; but a halted task may retain a
result or an error set before the halt.  The invariant is preserved by
every operation and by spawn. -/
theorem claim5_amended_mutex :
    (∀ (n : Nat) (w : World) (c : Call), MutexInv w → MutexInv (exec n w c))
    ∧ (∀ (w : World) (t : Nat) (r : TaskRec), MutexInv w → lookupT w t = some r →
        (r.state = .completed → (∃ v, r.result = some v) ∧ r.error = none)
        ∧ (r.state = .errored → (∃ e, r.error = some e) ∧ r.result = none)
        ∧ ¬(r.result ≠ none ∧ r.error ≠ none))
    ∧ (∀ (fuel : Nat) (w : World) (p : Nat) (body : BodySpec) (opts : TaskOptions)
        (w1 : World) (cId : Nat), MutexInv w → spawn fuel w p body opts = .ok (w1, cId) →
        MutexInv w1) := by
  refine ⟨exec_MutexInv, ?_, ?_⟩
  · intro w t r hm hl
    have hok := hm t r hl
    refine ⟨?_, ?_, ?_⟩
    · intro hst
      have := hok
      unfold fieldsOk at this
      rw [hst] at this
      exact this
    · intro hst
      have := hok
      unfold fieldsOk at this
      rw [hst] at this
      exact ⟨this.2, this.1⟩
    · intro ⟨hr, he⟩
      unfold fieldsOk at hok
      cases hst : r.state <;> rw [hst] at hok
      · exact hr hok.1
      · exact hr hok.1
      · exact he hok.2
      · exact he hok.2
      · exact hr hok.1
      · exact hr hok.1
      · rcases hok with h | h
        · exact hr h
        · exact he h
      · rcases hok with h | h
        · exact hr h
        · exact he h
  · intro fuel w p body opts w1 cId hm hsp
    unfold spawn at hsp
    split at hsp
    · exact Except.noConfusion hsp
    · rename_i r heq
      split at hsp
      · injection hsp with hpair
        injection hpair with hw hc
        subst hw
        refine exec_MutexInv _ _ _ (MutexInv_linkW _ _ ?_)
        intro t rr hl
        simp only [lookupT] at hl
        rw [lookupA_append] at hl
        cases hfst : lookupA w.tasks t with
        | some r0 =>
          rw [hfst] at hl
          injection hl with hh
          subst hh
          exact hm t r0 hfst
        | none =>
          rw [hfst] at hl
          simp only [lookupA] at hl
          split at hl
          · injection hl with hh
            subst hh
            exact ⟨rfl, rfl⟩
          · exact Option.noConfusion hl
      · exact Except.noConfusion hsp

/-- Witness for C5 amended: the invariant holds at the root world and is
preserved through a concrete start. -/
theorem claim5_witness :
    MutexInv (exec 10 rootW (.start 1)) := by
  refine claim5_amended_mutex.1 10 rootW (.start 1) ?_
  intro t r hr
  simp only [rootW, lookupT, lookupA] at hr
  by_cases h : (1 : Nat) = t
  · rw [if_pos h] at hr
    injection hr with hh
    subst hh
    exact ⟨rfl, rfl⟩
  · rw [if_neg h] at hr
    exact Option.noConfusion hr

end Effection

namespace Effection

theorem lookupA_none_of_bound (l : List (Nat × TaskRec)) (m : Nat)
    (hb : ∀ p ∈ l, p.1 < m) : lookupA l m = none := by
  induction l with
  | nil => rfl
  | cons q rest ih =>
    obtain ⟨k, r⟩ := q
    have hk : k < m := hb (k, r) (by simp)
    have hne : k ≠ m := Nat.ne_of_lt hk
    simp only [lookupA, hne, if_false]
    exact ih (fun q hq => hb q (List.mem_cons_of_mem _ hq))

theorem lookupA_mem {l : List (Nat × TaskRec)} {t : Nat} {r : TaskRec}
    (h : lookupA l t = some r) : (t, r) ∈ l := by
  induction l with
  | nil => exact Option.noConfusion h
  | cons q rest ih =>
    obtain ⟨k, r0⟩ := q
    by_cases hk : k = t
    · subst hk
      simp only [lookupA, if_pos rfl] at h
      injection h with hh
      subst hh
      exact List.mem_cons_self _ _
    · simp only [lookupA, hk, if_false] at h
      exact List.mem_cons_of_mem _ (ih h)

/-- Claim C7: `spawn` fails exactly when the task is not running; on
success it defaults resourceScope to the spawning task, creates a fresh
pending child carrying the parent's trap as its only trapper, links it
into the children set, starts it, and returns it. -/
theorem claim7_spawn :
    ∀ (fuel : Nat) (w : World) (p : Nat) (r : TaskRec) (body : BodySpec) (opts : TaskOptions),
      lookupT w p = some r →
      ((r.state ≠ .running → ∃ msg, spawn fuel w p body opts = .error msg)
      ∧ (∀ w1 cId, spawn fuel w p body opts = .ok (w1, cId) → r.state = .running)
      ∧ (r.state = .running → idsBounded w →
          spawn fuel w p body opts = .ok (exec fuel (linkW { w with nextId := w.nextId + 1, tasks := w.tasks ++ [(w.nextId, newTask (match opts.resourceScope with | none => { opts with resourceScope := some p } | some _ => opts) body)] } p w.nextId) (.start w.nextId), w.nextId)
          ∧ lookupT w w.nextId = none
          ∧ lookupT (linkW { w with nextId := w.nextId + 1, tasks := w.tasks ++ [(w.nextId, newTask (match opts.resourceScope with | none => { opts with resourceScope := some p } | some _ => opts) body)] } p w.nextId) w.nextId
              = some { newTask (match opts.resourceScope with | none => { opts with resourceScope := some p } | some _ => opts) body with trappers := [.trapOf p] }
          ∧ (lookupT (linkW { w with nextId := w.nextId + 1, tasks := w.tasks ++ [(w.nextId, newTask (match opts.resourceScope with | none => { opts with resourceScope := some p } | some _ => opts) body)] } p w.nextId) w.nextId).map (fun q => q.options.resourceScope)
              = some (some (opts.resourceScope.getD p))
          ∧ w.nextId ∈ childrenOf (linkW { w with nextId := w.nextId + 1, tasks := w.tasks ++ [(w.nextId, newTask (match opts.resourceScope with | none => { opts with resourceScope := some p } | some _ => opts) body)] } p w.nextId) p
          ∧ stateOf (linkW { w with nextId := w.nextId + 1, tasks := w.tasks ++ [(w.nextId, newTask (match opts.resourceScope with | none => { opts with resourceScope := some p } | some _ => opts) body)] } p w.nextId) w.nextId = some .pending
          ∧ (body = .never → ∀ m, fuel = m + 1 →
              stateOf (exec fuel (linkW { w with nextId := w.nextId + 1, tasks := w.tasks ++ [(w.nextId, newTask (match opts.resourceScope with | none => { opts with resourceScope := some p } | some _ => opts) body)] } p w.nextId) (.start w.nextId)) w.nextId = some .running))) := by
  intro fuel w p r body opts heq
  refine ⟨?_, ?_, ?_⟩
  · intro hnr
    unfold spawn
    simp only [heq]
    rw [if_neg hnr]
    exact ⟨_, rfl⟩
  · intro w1 cId hok
    unfold spawn at hok
    simp only [heq] at hok
    by_cases hrun : r.state = .running
    · exact hrun
    · rw [if_neg hrun] at hok
      exact Except.noConfusion hok
  · intro hrun hb
    have hfresh : lookupT w w.nextId = none := by
      unfold lookupT
      exact lookupA_none_of_bound _ _ (fun q hq => (hb q hq).1)
    have hpmem := lookupA_mem (l := w.tasks) (t := p) (r := r) heq
    have hplt : p < w.nextId := (hb (p, r) hpmem).1
    have hpne : p ≠ w.nextId := Nat.ne_of_lt hplt
    have hcne : w.nextId ≠ p := fun h => hpne h.symm
    have hcnotchild : w.nextId ∉ r.children := by
      intro hmem
      exact Nat.lt_irrefl _ ((hb (p, r) hpmem).2 _ hmem)
    have hl1c : lookupT { w with nextId := w.nextId + 1, tasks := w.tasks ++ [(w.nextId, newTask (match opts.resourceScope with | none => { opts with resourceScope := some p } | some _ => opts) body)] } w.nextId = some (newTask (match opts.resourceScope with | none => { opts with resourceScope := some p } | some _ => opts) body) := by
      unfold lookupT
      rw [show ({ w with nextId := w.nextId + 1, tasks := w.tasks ++ [(w.nextId, newTask (match opts.resourceScope with | none => { opts with resourceScope := some p } | some _ => opts) body)] } : World).tasks = w.tasks ++ [(w.nextId, newTask (match opts.resourceScope with | none => { opts with resourceScope := some p } | some _ => opts) body)] from rfl]
      rw [lookupA_append]
      rw [show lookupA w.tasks w.nextId = none from hfresh]
      simp [lookupA]
    have hl1p : lookupT { w with nextId := w.nextId + 1, tasks := w.tasks ++ [(w.nextId, newTask (match opts.resourceScope with | none => { opts with resourceScope := some p } | some _ => opts) body)] } p = some r := by
      unfold lookupT
      rw [show ({ w with nextId := w.nextId + 1, tasks := w.tasks ++ [(w.nextId, newTask (match opts.resourceScope with | none => { opts with resourceScope := some p } | some _ => opts) body)] } : World).tasks = w.tasks ++ [(w.nextId, newTask (match opts.resourceScope with | none => { opts with resourceScope := some p } | some _ => opts) body)] from rfl]
      rw [lookupA_append]
      rw [show lookupA w.tasks p = some r from heq]
    have hlink : (linkW { w with nextId := w.nextId + 1, tasks := w.tasks ++ [(w.nextId, newTask (match opts.resourceScope with | none => { opts with resourceScope := some p } | some _ => opts) body)] } p w.nextId)
        = pushLog (updTask (addTrapperW { w with nextId := w.nextId + 1, tasks := w.tasks ++ [(w.nextId, newTask (match opts.resourceScope with | none => { opts with resourceScope := some p } | some _ => opts) body)] } w.nextId (.trapOf p)) p
            (fun q => { q with children := q.children ++ [w.nextId] }))
            (.linkE p w.nextId) := by
      unfold linkW
      simp only [hl1p]
      rw [if_neg hcnotchild]
    have hl2c : lookupT (linkW { w with nextId := w.nextId + 1, tasks := w.tasks ++ [(w.nextId, newTask (match opts.resourceScope with | none => { opts with resourceScope := some p } | some _ => opts) body)] } p w.nextId) w.nextId
        = some { newTask (match opts.resourceScope with | none => { opts with resourceScope := some p } | some _ => opts) body with trappers := [.trapOf p] } := by
      rw [hlink, lookupT_pushLog, lookupT_updTask_ne _ _ _ _ hcne]
      unfold addTrapperW
      rw [lookupT_updTask_self, hl1c]
      rfl
    have hl2p : lookupT (linkW { w with nextId := w.nextId + 1, tasks := w.tasks ++ [(w.nextId, newTask (match opts.resourceScope with | none => { opts with resourceScope := some p } | some _ => opts) body)] } p w.nextId) p
        = some { r with children := r.children ++ [w.nextId] } := by
      rw [hlink, lookupT_pushLog, lookupT_updTask_self]
      unfold addTrapperW
      rw [lookupT_updTask_ne _ _ _ _ hpne, hl1p]
      rfl
    refine ⟨?_, hfresh, hl2c, ?_, ?_, ?_, ?_⟩
    · unfold spawn
      simp only [heq]
      rw [if_pos hrun]
    · rw [hl2c]
      cases hrs : opts.resourceScope <;> simp [newTask, Option.getD, hrs]
    · simp [childrenOf, hl2p]
    · unfold stateOf
      rw [hl2c]
      rfl
    · intro hbody m hm
      subst hm
      subst hbody
      have hl2cu := hl2c
      simp only [newTask] at hl2cu
      simp only [exec, newTask, hl2cu, smStart]
      unfold stateOf
      rw [lookupT_pushLog]
      unfold updState
      rw [lookupT_updTask_self, hl2cu]
      rfl

end Effection

namespace Effection

/-- Witness for C7: spawning on a pending root throws; on the running root
the fresh child id is indeed unused. -/
theorem claim7_witness :
    (∃ msg, spawn 5 rootW 1 BodySpec.never ({} : TaskOptions) = .error msg)
    ∧ lookupT rootRunning 2 = none :=
  ⟨(claim7_spawn 5 rootW 1 {} BodySpec.never {} (by decide)).1 (by decide),
    ((claim7_spawn 5 rootRunning 1 { state := .running } BodySpec.never {}
        (by decide)).2.2 (by decide) (by unfold idsBounded; decide)).2.1⟩

end Effection

namespace Effection

/-- Claim C8: at the frame level a second `destroy` (with any reason) is a
no-op; at the task level `halt` on an already-terminal task is a no-op, so
once a first `halt` has settled the task, further `halt` calls change
nothing and the terminal state is stable. -/
theorem claim8_halt_idempotent :
    (∀ (f : Fr.FrameS) (r1 r2 : Option Int),
      Fr.destroy r2 (Fr.destroy r1 f) = Fr.destroy r1 f)
    ∧ (∀ (n : Nat) (w : World) (t : Nat),
        isTerminalO (stateOf w t) = true → exec n w (.halt t) = w)
    ∧ (∀ (n : Nat) (w : World) (t : Nat),
        isTerminalO (stateOf (exec n w (.halt t)) t) = true →
        exec n (exec n w (.halt t)) (.halt t) = exec n w (.halt t)) := by
  have hterminalHalt : ∀ (n : Nat) (w : World) (t : Nat),
      isTerminalO (stateOf w t) = true → exec n w (.halt t) = w := by
    intro n w t ht
    cases n with
    | zero => rfl
    | succ n =>
      simp only [exec]
      split
      · rfl
      · rename_i r heq
        split
        · rename_i hst
          exfalso
          have hterm := terminal_of_lookup heq ht
          rcases hst with h | h | h <;> rw [h] at hterm <;>
            exact absurd hterm (by simp [isTerminal])
        · rfl
  refine ⟨?_, hterminalHalt, ?_⟩
  · intro f r1 r2
    unfold Fr.destroy
    by_cases h : f.aborted = false
    · simp [h]
    · simp [h]
  · intro n w t ht
    exact hterminalHalt n _ t ht

/-- Witness for C8: halting the already halted root of the C5 scenario
changes nothing. -/
theorem claim8_witness :
    exec 5 c5run (.halt 1) = c5run :=
  claim8_halt_idempotent.2.1 5 c5run 1 (by decide)

end Effection

namespace Fr

/-- Claim C9 counterexample: a frame destroyed with crash reason 7 whose
try-finally unwinding yields an instruction that errs (uncaught, error 5)
exits with that error result, not with the crashed classification the
claim asserts. -/
theorem claim9_counterexample :
    runFrame 10 cexBody = some (Exit.result (Res.err 5))
    ∧ runFrame 10 cexBody ≠ some (Exit.crashed 7)
    ∧ runFrame 10 cexBody ≠ some Exit.aborted := by
  refine ⟨by decide, by decide, by decide⟩

/-- Claim C9 amended: `destroy` at a suspension sets the aborted flag and
the crash reason and pushes an abort thunk; from then on the flags never
change (a second destroy is a no-op), the evaluator runs post-abort
instructions normally, and when the unwinding ends with an ok result the
exit is crashed (with the recorded reason) or aborted (no reason); when
the unwinding ends with an error the exit is that error result instead. -/
theorem claim9_abort_classification :
    (∀ (n : Nat) (thunks rest : List Thunk) (susp k : Susp) (v : Int)
        (reason : Option Int) (fl : Flags),
      popLast thunks = some (.tnext v, rest) →
      doNext susp v = .yielded (.interruptedBy reason) k →
      fl.aborted = false →
      loop (n + 1) thunks susp fl
        = loop n (.tabort :: rest) k { aborted := true, crash := reason })
    ∧ (∀ (n : Nat) (thunks : List Thunk) (susp : Susp) (reason : Option Int)
        (r : Res) (fl : Flags),
      loop n thunks susp { aborted := true, crash := reason } = some (r, fl) →
      fl = { aborted := true, crash := reason }
      ∧ (∀ v, r = .ok v → exitOf r fl = (match reason with
          | some e => Exit.crashed e
          | none => Exit.aborted))
      ∧ (∀ e, r = .err e → exitOf r fl = .result (.err e))) := by
  constructor
  · intro n thunks rest susp k v reason fl hpop hnext hab
    simp only [loop, hpop, hnext, hab]
    rfl
  · have hpersist : ∀ (n : Nat) (thunks : List Thunk) (susp : Susp) (reason : Option Int)
        (r : Res) (fl : Flags),
        loop n thunks susp { aborted := true, crash := reason } = some (r, fl) →
        fl = { aborted := true, crash := reason } := by
      intro n
      induction n with
      | zero => intro thunks susp reason r fl h; exact Option.noConfusion h
      | succ n ih =>
        intro thunks susp reason r fl h
        simp only [loop] at h
        rcases hpop : popLast thunks with _ | ⟨thunk, rest⟩
        · rw [hpop] at h
          exact Option.noConfusion h
        · rw [hpop] at h
          cases thunk with
          | tdone r0 =>
            injection h with hh
            injection hh with h1 h2
            exact h2.symm
          | tnext v =>
            simp only [] at h
            rcases hout : doNext susp v with v0 | e0 | ⟨s0, k0⟩
            · rw [hout] at h
              exact ih _ _ _ _ _ h
            · rw [hout] at h
              exact ih _ _ _ _ _ h
            · rw [hout] at h
              rcases s0 with r0 | r0
              · rcases r0 with v1 | e1
                · exact ih _ _ _ _ _ h
                · exact ih _ _ _ _ _ h
              · exact Option.noConfusion h
          | tthrow e =>
            simp only [] at h
            rcases hout : doThrow susp e with v0 | e0 | ⟨s0, k0⟩
            · rw [hout] at h
              exact ih _ _ _ _ _ h
            · rw [hout] at h
              exact ih _ _ _ _ _ h
            · rw [hout] at h
              rcases s0 with r0 | r0
              · rcases r0 with v1 | e1
                · exact ih _ _ _ _ _ h
                · exact ih _ _ _ _ _ h
              · exact Option.noConfusion h
          | tabort =>
            simp only [] at h
            rcases hout : doReturn susp with v0 | e0 | ⟨s0, k0⟩
            · rw [hout] at h
              exact ih _ _ _ _ _ h
            · rw [hout] at h
              exact ih _ _ _ _ _ h
            · rw [hout] at h
              rcases s0 with r0 | r0
              · rcases r0 with v1 | e1
                · exact ih _ _ _ _ _ h
                · exact ih _ _ _ _ _ h
              · exact Option.noConfusion h
    intro n thunks susp reason r fl h
    have hfl := hpersist n thunks susp reason r fl h
    subst hfl
    refine ⟨rfl, ?_, ?_⟩
    · intro v hv
      subst hv
      cases reason <;> rfl
    · intro e he
      subst he
      rfl

/-- Witness for C9 amended: a concrete aborted unwinding that yields one
more instruction, ends ok, and is classified crashed with the recorded
reason. -/
theorem claim9_witness :
    Fr.exitOf (.ok 9) { aborted := true, crash := some 7 } = Exit.crashed 7 :=
  ((claim9_abort_classification.2 10 [.tabort]
      (.atYield (fun _ => .done 0) none (some (.yld (.settles (.ok 3)) (fun _ => .done 9) none none)))
      (some 7) (.ok 9) { aborted := true, crash := some 7 } rfl).2.1 9 rfl)

end Fr

namespace FC

/-- Claim C10: halting a FunctionContoller before `start` throws the
internal error; after `start` has classified the body into a promise or an
iterator controller, halt delegates to it; a body that throws during start
rejects the task and leaves the controller unset. -/
theorem claim10_halt_before_start :
    haltFC {} = .error "INTERNAL ERROR: halt called before start, this should never happen"
    ∧ (∀ s : FCState, s.controller = none →
        haltFC s = .error "INTERNAL ERROR: halt called before start, this should never happen")
    ∧ (∀ (s : FCState) (k : CtrlKind), s.controller = some k → haltFC s = Except.ok k)
    ∧ (∀ s : FCState, (startFC .returnsPromise s).1.controller = some .promiseC
        ∧ (startFC .returnsPromise s).2 = .startedWith .promiseC)
    ∧ (∀ s : FCState, (startFC .returnsIterator s).1.controller = some .iteratorC
        ∧ (startFC .returnsIterator s).2 = .startedWith .iteratorC)
    ∧ (∀ (e : Int) (s : FCState), startFC (.throws e) s = (s, .taskRejected e)) := by
  refine ⟨rfl, ?_, ?_, fun s => ⟨rfl, rfl⟩, fun s => ⟨rfl, rfl⟩, fun e s => rfl⟩
  · intro s h
    unfold haltFC
    rw [h]
  · intro s k h
    unfold haltFC
    rw [h]

/-- Witness for C10: halting the freshly-constructed (unstarted) controller
state errors; halting after a promise start succeeds. -/
theorem claim10_witness :
    haltFC { controller := none }
      = .error "INTERNAL ERROR: halt called before start, this should never happen"
    ∧ haltFC { controller := some .promiseC } = Except.ok CtrlKind.promiseC :=
  ⟨claim10_halt_before_start.2.1 { controller := none } rfl,
    claim10_halt_before_start.2.2.1 { controller := some .promiseC } .promiseC rfl⟩

end FC
